import Mathlib

/-!
Shallow embedding of the KPI job-controller core of
`src/iotfunctions/pipeline.py` (classes `DataMerge`, `Db2DataWriter`,
`JobController`, `JobLog`) together with proofs about its specified
behaviour.

Modelling conventions:
* Timestamps and durations are integers counting microseconds
  (`pd.to_timedelta('1us') = 1`); `pd.Timestamp` arithmetic becomes `Int`
  arithmetic and Python floor division `//` becomes `Int.fdiv`.
* `dt.datetime.combine(execute_date.utcnow().date(), dt.datetime.min.time())`
  (midnight of the current UTC day) is passed in explicitly as the
  parameter `todayMidnight`.
* Python dictionaries keyed by strings become association lists, in
  insertion order; the callers under verification never produce duplicate
  keys, and the theorems carry `Nodup` hypotheses where it matters.
* Fallible code returns `Except PyError`.
-/

namespace Pipeline

/-- Python-level error values raised by the embedded code. Python's own
exception classes are collapsed to a constructor plus message. -/
inductive PyError where
  | typeError (msg : String)
  | valueError (msg : String)
  | nameError (msg : String)
  | indexError (msg : String)
  | attributeError (msg : String)
  deriving Repr, DecidableEq

/-- IEEE float values as far as the writer observes them: a finite value
(modelled as a rational), or one of the non-finite values. -/
inductive XFloat where
  | fin (q : ℚ)
  | nan
  | posInf
  | negInf
  deriving Repr, DecidableEq

/-- Python scalar values that can appear in a dataframe cell, as a stage
result, or as a constant. `vnone` stands for Python `None` / pandas null. -/
inductive PyVal where
  | vnone
  | vbool (b : Bool)
  | vint (n : Int)
  | vnum (x : XFloat)
  | vstr (s : String)
  | vtime (t : Int)
  deriving Repr, DecidableEq

namespace PyVal

/-- pd.isna: true for Python `None` and for float NaN. -/
def isNA : PyVal → Bool
  | vnone => true
  | vnum XFloat.nan => true
  | _ => false

/-- np.isfinite on an XFloat. -/
def isFiniteX : XFloat → Bool
  | XFloat.fin _ => true
  | _ => false

/-- Python `bool(v)` truthiness. NaN and infinities are truthy. -/
def truthy : PyVal → Bool
  | vnone => false
  | vbool b => b
  | vint n => n ≠ 0
  | vnum (XFloat.fin q) => q ≠ 0
  | vnum _ => true
  | vstr s => s ≠ ""
  | vtime _ => true

/-- Python `float(v)` for the value shapes the writer can meet on a
NUMBER item: bools and numbers coerce, anything else raises. Parsing of
numeric strings is not modelled. -/
def toFloat : PyVal → Except PyError XFloat
  | vbool b => Except.ok (XFloat.fin (if b then 1 else 0))
  | vint n => Except.ok (XFloat.fin n)
  | vnum x => Except.ok x
  | v => Except.error (PyError.typeError ("float() argument " ++ reprStr v))

/-- Python `str(v)`: some total rendering; the exact text is irrelevant to
the claims, only that the LITERAL slot carries the string coercion. -/
def toStr : PyVal → String
  | vnone => "None"
  | vbool true => "True"
  | vbool false => "False"
  | vint n => toString n
  | vnum (XFloat.fin q) => toString q
  | vnum XFloat.nan => "nan"
  | vnum XFloat.posInf => "inf"
  | vnum XFloat.negInf => "-inf"
  | vstr s => s
  | vtime t => toString t

end PyVal

/-! ### JobController.adjust_to_schedule (pipeline.py lines 951-978) -/

/-- Microseconds per minute. -/
def usPerMin : Int := 60000000

/-- Microseconds per hour. -/
def usPerHour : Int := 3600000000

/-- Microseconds per day. -/
def usPerDay : Int := 86400000000

/-- JobController.adjust_to_schedule. `todayMidnight` models
`dt.datetime.combine(execute_date.utcnow().date(), dt.datetime.min.time())`,
i.e. midnight of the current UTC day, constant for a given wall clock.
`interval` is `pd.to_timedelta(interval)` in microseconds. Timedelta floor
division `//` is `Int.fdiv`. -/
def adjust_to_schedule (todayMidnight : Int) (execute_date : Int)
    (start_hours start_min : Option Int) (interval : Int) : Int :=
  if start_hours = none ∧ start_min = none then execute_date
  else
    let sh := start_hours.getD 0
    let sm := start_min.getD 0
    let scheduled0 := todayMidnight + sh * usPerHour + sm * usPerMin
    let scheduled := if scheduled0 > execute_date then scheduled0 - usPerDay
                     else scheduled0
    let periods := Int.fdiv (execute_date - scheduled) interval
    scheduled + periods * interval

/-- The adjusted date never exceeds the input date (with a positive
interval): the code floors down onto the schedule grid. -/
theorem adjust_to_schedule_le (todayMidnight execute_date : Int)
    (start_hours start_min : Option Int) (interval : Int)
    (hI : 0 < interval) :
    adjust_to_schedule todayMidnight execute_date start_hours start_min
      interval ≤ execute_date := by
  unfold adjust_to_schedule
  by_cases h : start_hours = none ∧ start_min = none
  · simp [h]
  · simp only [if_neg h]
    set base := if todayMidnight + start_hours.getD 0 * usPerHour +
        start_min.getD 0 * usPerMin > execute_date then
        todayMidnight + start_hours.getD 0 * usPerHour +
        start_min.getD 0 * usPerMin - usPerDay
      else todayMidnight + start_hours.getD 0 * usPerHour +
        start_min.getD 0 * usPerMin with hbase
    have hfd : Int.fdiv (execute_date - base) interval * interval ≤
        execute_date - base := by
      rw [Int.fdiv_eq_ediv _ (le_of_lt hI)]
      exact Int.ediv_mul_le _ (ne_of_gt hI)
    omega

/-- Helper: a value already on the grid is a fixed point of the flooring
step. -/
theorem fdiv_grid_fix (base k interval : Int) (hI : interval ≠ 0) :
    base + Int.fdiv (base + k * interval - base) interval * interval =
      base + k * interval := by
  have : base + k * interval - base = k * interval := by ring
  rw [this, Int.mul_fdiv_cancel _ hI]

/-- C10 — Rounding idempotence: applying `adjust_to_schedule` twice gives
the same result as applying it once, for every execution date, every
round-hour/round-minute setting and every positive interval, with the
current-UTC-day anchor `todayMidnight` held constant between the two
applications. -/
theorem adjust_to_schedule_idempotent (todayMidnight t : Int)
    (start_hours start_min : Option Int) (interval : Int)
    (hI : 0 < interval) :
    adjust_to_schedule todayMidnight
      (adjust_to_schedule todayMidnight t start_hours start_min interval)
      start_hours start_min interval =
    adjust_to_schedule todayMidnight t start_hours start_min interval := by
  by_cases h : start_hours = none ∧ start_min = none
  · simp [adjust_to_schedule, h]
  · have hIne : interval ≠ 0 := ne_of_gt hI
    set s0 := todayMidnight + start_hours.getD 0 * usPerHour +
      start_min.getD 0 * usPerMin with hs0
    -- the adjusted value for a given input date
    have hdef : ∀ u : Int, adjust_to_schedule todayMidnight u start_hours
        start_min interval =
        (if s0 > u then s0 - usPerDay else s0) +
          Int.fdiv (u - (if s0 > u then s0 - usPerDay else s0)) interval *
            interval := by
      intro u
      unfold adjust_to_schedule
      simp only [if_neg h]
    set a := adjust_to_schedule todayMidnight t start_hours start_min
      interval with ha
    have hat : a ≤ t := adjust_to_schedule_le _ _ _ _ _ hI
    by_cases hgt : s0 > t
    · -- anchor above t: base is s0 - usPerDay in both applications
      have h1 : a = (s0 - usPerDay) +
          Int.fdiv (t - (s0 - usPerDay)) interval * interval := by
        rw [ha, hdef t, if_pos hgt]
      have hgt2 : s0 > a := lt_of_le_of_lt hat hgt
      have h2 := hdef a
      rw [if_pos hgt2] at h2
      rw [h2, h1, fdiv_grid_fix _ _ _ hIne]
    · -- anchor at or below t: base is s0 in both applications
      push_neg at hgt
      have h1 : a = s0 + Int.fdiv (t - s0) interval * interval := by
        rw [ha, hdef t, if_neg (not_lt.mpr hgt)]
      have hk : 0 ≤ Int.fdiv (t - s0) interval := by
        rw [Int.fdiv_eq_ediv _ (le_of_lt hI)]
        exact Int.ediv_nonneg (by omega) (le_of_lt hI)
      have hs0a : s0 ≤ a := by
        rw [h1]
        nlinarith [mul_nonneg hk (le_of_lt hI)]
      have h2 := hdef a
      rw [if_neg (not_lt.mpr hs0a)] at h2
      rw [h2, h1, fdiv_grid_fix _ _ _ hIne]

/-- Witness for the idempotence theorem at a concrete schedule: round hour
9, interval 5 minutes. -/
theorem adjust_to_schedule_idempotent_witness :
    (0 : Int) < 300000000 ∧
    adjust_to_schedule 0
      (adjust_to_schedule 0 86399000000 (some 9) none 300000000)
      (some 9) none 300000000 =
    adjust_to_schedule 0 86399000000 (some 9) none 300000000 :=
  ⟨by decide,
   adjust_to_schedule_idempotent 0 86399000000 (some 9) none 300000000
     (by decide)⟩

/-! ### JobController.evaluate_schedules (pipeline.py lines 1532-1619),
get_next_execution_date (1770-1789) and build_schedules_list (1112-1138) -/

/-- A schedule's backtrack setting: the literal string `"checkpoint"` or a
duration (already converted by `pd.to_timedelta`, in microseconds). -/
inductive Backtrack where
  | checkpoint
  | duration (d : Int)
  deriving Repr, DecidableEq

/-- One entry of `self._schedules`: the tuple
`(freq, start_hour, start_min, backtrack)` produced by
`build_schedules_list`, with `freqDuration = pd.to_timedelta(freq)`
carried alongside the frequency string. -/
structure ScheduleSpec where
  freq : String
  freqDuration : Int
  round_hour : Option Int
  round_min : Option Int
  backtrack : Option Backtrack
  deriving Repr, DecidableEq

/-- The per-schedule metadata dict assembled by `evaluate_schedules`. -/
structure SchedMeta where
  next_date : Int
  is_subsumed : Bool
  prev_checkpoint : Option Int
  is_checkpoint_driven : Bool
  round_hour : Option Int
  round_min : Option Int
  is_due : Bool
  start_date : Option Int
  backtrack : Option Backtrack
  mark_complete : List String
  deriving Repr, DecidableEq

/-- Environment for a schedule evaluation: the execution date, the
current-day anchor used by `adjust_to_schedule`, the JobLog lookup
`get_last_execution_date(name, schedule)` restricted to this job's name,
and the payload's `is_schedule_progressive` flag (default `True`). -/
structure SchedEnv where
  execute_date : Int
  todayMidnight : Int
  lastExec : String → Option Int
  is_schedule_progressive : Bool

/-- JobController.get_next_execution_date: last execution plus frequency,
or the current execution date when the schedule never ran. -/
def get_next_execution_date (env : SchedEnv) (s : ScheduleSpec) : Int :=
  match env.lastExec s.freq with
  | none => env.execute_date
  | some last => last + s.freqDuration

/-- The rounded next execution date for a schedule: `next_date` after
`adjust_to_schedule` (lines 1547-1563; storing the rounded value back is
an identity when rounding changed nothing). -/
def rounded_next_date (env : SchedEnv) (s : ScheduleSpec) : Int :=
  adjust_to_schedule env.todayMidnight (get_next_execution_date env s)
    s.round_hour s.round_min s.freqDuration

/-- Whether a schedule is due at the execution date (line 1566). -/
def schedule_is_due (env : SchedEnv) (s : ScheduleSpec) : Bool :=
  rounded_next_date env s ≤ env.execute_date

/-- The first pass of `evaluate_schedules` for one schedule: the metadata
dict as built by lines 1544-1594, before the progressive-subsumption
rewrite. -/
def eval_one_schedule (env : SchedEnv) (s : ScheduleSpec) : SchedMeta :=
  let nd := rounded_next_date env s
  if nd ≤ env.execute_date then
    -- due branch (lines 1566-1590)
    let base : SchedMeta :=
      { next_date := nd, is_subsumed := false, prev_checkpoint := none,
        is_checkpoint_driven := false, round_hour := s.round_hour,
        round_min := s.round_min, is_due := true, start_date := none,
        backtrack := s.backtrack, mark_complete := [s.freq] }
    match s.backtrack with
    | some Backtrack.checkpoint =>
      let prev := env.lastExec s.freq
      { base with
        is_checkpoint_driven := true, prev_checkpoint := prev,
        start_date := prev.map (· + 1), backtrack := none }
    | some (Backtrack.duration d) =>
      { base with start_date := some (env.execute_date - d) }
    | none => base
  else
    -- not-due branch (lines 1591-1594)
    { next_date := nd, is_subsumed := false, prev_checkpoint := none,
      is_checkpoint_driven := false, round_hour := s.round_hour,
      round_min := s.round_min, is_due := false, start_date := none,
      backtrack := none, mark_complete := [] }

/-- The frequencies of all schedules that are due, in list order
(`all_due` in the source). -/
def all_due_freqs (env : SchedEnv) (scheds : List ScheduleSpec) :
    List String :=
  (scheds.filter (fun s => schedule_is_due env s)).map (·.freq)

/-- The metadata dict after the first pass of `evaluate_schedules`
(lines 1541-1594), as an insertion-ordered association list. -/
def sched_metas_base (env : SchedEnv) (scheds : List ScheduleSpec) :
    List (String × SchedMeta) :=
  scheds.map (fun s => (s.freq, eval_one_schedule env s))

/-- The in-place rewrite of one metadata entry performed by the
progressive-subsumption loop (lines 1608-1617): the last due schedule
receives the full `mark_complete` list, every other due schedule is
flipped to not due and subsumed. -/
def progressive_rewrite (allDue : List String) (lastDue : String)
    (p : String × SchedMeta) : String × SchedMeta :=
  if p.1 = lastDue then (p.1, { p.2 with mark_complete := allDue })
  else if p.2.is_due then
    (p.1, { p.2 with is_due := false, is_subsumed := true })
  else p

/-- JobController.evaluate_schedules: build the per-schedule metadata,
then, when at least one schedule is due and the payload is progressive,
rewrite the entries with `progressive_rewrite` (lines 1601-1617).
`last_schedule_due` ends up as the last due schedule in iteration
order, i.e. the last element of `all_due_freqs`. -/
def evaluate_schedules (env : SchedEnv) (scheds : List ScheduleSpec) :
    List (String × SchedMeta) :=
  match (all_due_freqs env scheds).getLast? with
  | none => sched_metas_base env scheds
  | some lastDue =>
    if env.is_schedule_progressive then
      (sched_metas_base env scheds).map
        (progressive_rewrite (all_due_freqs env scheds) lastDue)
    else sched_metas_base env scheds

/-- The first-pass metadata reports `is_due` exactly when the schedule is
due. -/
theorem eval_one_schedule_is_due (env : SchedEnv) (s : ScheduleSpec) :
    (eval_one_schedule env s).is_due = schedule_is_due env s := by
  unfold eval_one_schedule schedule_is_due
  by_cases h : rounded_next_date env s ≤ env.execute_date
  · simp only [if_pos h, decide_eq_true_eq]
    cases hb : s.backtrack with
    | none => simp [h]
    | some bt => cases bt <;> simp [h]
  · simp [if_neg h, h]

/-- Checkpoint fields of the first-pass metadata for a due,
checkpoint-driven schedule. -/
theorem eval_one_schedule_checkpoint (env : SchedEnv) (s : ScheduleSpec)
    (hdue : schedule_is_due env s = true)
    (hbt : s.backtrack = some Backtrack.checkpoint) :
    (eval_one_schedule env s).prev_checkpoint = env.lastExec s.freq ∧
    (eval_one_schedule env s).start_date =
      (env.lastExec s.freq).map (· + 1) ∧
    (eval_one_schedule env s).backtrack = none := by
  have h' : rounded_next_date env s ≤ env.execute_date := by
    simpa [schedule_is_due] using hdue
  unfold eval_one_schedule
  rw [if_pos h', hbt]
  exact ⟨rfl, rfl, rfl⟩

/-- The progressive-subsumption pass never touches `prev_checkpoint`,
`start_date` or `backtrack`: every metadata entry agrees with its
first-pass value on those fields. -/
theorem evaluate_schedules_fields (env : SchedEnv)
    (scheds : List ScheduleSpec) (p : String × SchedMeta)
    (hp : p ∈ evaluate_schedules env scheds) :
    ∃ s ∈ scheds, p.1 = s.freq ∧
      p.2.prev_checkpoint = (eval_one_schedule env s).prev_checkpoint ∧
      p.2.start_date = (eval_one_schedule env s).start_date ∧
      p.2.backtrack = (eval_one_schedule env s).backtrack := by
  have hbase : ∀ q, q ∈ sched_metas_base env scheds →
      ∃ s ∈ scheds, q.1 = s.freq ∧
        q.2.prev_checkpoint = (eval_one_schedule env s).prev_checkpoint ∧
        q.2.start_date = (eval_one_schedule env s).start_date ∧
        q.2.backtrack = (eval_one_schedule env s).backtrack := by
    intro q hq
    simp only [sched_metas_base, List.mem_map] at hq
    obtain ⟨s, hs, hqs⟩ := hq
    exact ⟨s, hs, by rw [← hqs], by rw [← hqs], by rw [← hqs],
      by rw [← hqs]⟩
  unfold evaluate_schedules at hp
  rcases hlast : (all_due_freqs env scheds).getLast? with _ | lastDue
  all_goals rw [hlast] at hp
  · exact hbase p hp
  · by_cases hprog : env.is_schedule_progressive = true
    all_goals simp only [hprog, ite_true, ite_false, if_pos, if_neg,
      Bool.false_eq_true, List.mem_map] at hp
    · obtain ⟨q, hq, hpq⟩ := hp
      obtain ⟨s, hs, h1, h2, h3, h4⟩ := hbase q hq
      refine ⟨s, hs, ?_⟩
      subst hpq
      unfold progressive_rewrite
      by_cases hc1 : q.1 = lastDue
      · simp only [hc1, ite_true, if_pos]
        exact ⟨hc1 ▸ h1, h2, h3, h4⟩
      · rw [if_neg hc1]
        by_cases hc2 : q.2.is_due = true
        · rw [if_pos hc2]
          exact ⟨h1, h2, h3, h4⟩
        · rw [if_neg hc2]
          exact ⟨h1, h2, h3, h4⟩
    · exact hbase p hp

/-- C8 — Checkpoint start date: for every schedule that is due at
evaluation time and whose backtrack setting is the literal "checkpoint",
every metadata entry `evaluate_schedules` returns under that schedule's
frequency has `backtrack = null`, `prev_checkpoint` equal to the job-log
last execution time, `start_date` equal to that time plus one microsecond
(and null when the job log has no record); consequently the computed
start date is strictly greater than the last recorded completion time. -/
theorem evaluate_schedules_checkpoint_start (env : SchedEnv)
    (scheds : List ScheduleSpec) (s : ScheduleSpec) (m : SchedMeta)
    (hnodup : (scheds.map (·.freq)).Nodup)
    (hs : s ∈ scheds)
    (hdue : schedule_is_due env s = true)
    (hbt : s.backtrack = some Backtrack.checkpoint)
    (hm : (s.freq, m) ∈ evaluate_schedules env scheds) :
    m.backtrack = none ∧
    m.prev_checkpoint = env.lastExec s.freq ∧
    m.start_date = (env.lastExec s.freq).map (· + 1) ∧
    (env.lastExec s.freq = none → m.start_date = none) ∧
    (∀ last sd, env.lastExec s.freq = some last → m.start_date = some sd →
      last < sd) := by
  obtain ⟨s', hs', hfreq, hpc, hsd, hbt'⟩ :=
    evaluate_schedules_fields env scheds (s.freq, m) hm
  have hss : s' = s := by
    have := List.inj_on_of_nodup_map hnodup hs' hs hfreq.symm
    exact this
  subst hss
  obtain ⟨h1, h2, h3⟩ := eval_one_schedule_checkpoint env s' hdue hbt
  refine ⟨by rw [hbt', h3], by rw [hpc, h1], by rw [hsd, h2], ?_, ?_⟩
  · intro hnone
    rw [hsd, h2, hnone]
    rfl
  · intro last sd hlast hstart
    rw [hsd, h2, hlast] at hstart
    have hval : last + 1 = sd := by simpa using hstart
    omega

/-- Concrete environment for the checkpoint witness: the job log records a
completion of the "15min" schedule at time 1000, evaluation is at time
2000 and the (toy) frequency duration is 500 microseconds. -/
def wCkptEnv : SchedEnv :=
  { execute_date := 2000, todayMidnight := 0,
    lastExec := fun f => if f = "15min" then some 1000 else none,
    is_schedule_progressive := true }

/-- The checkpoint-driven schedule of the witness. -/
def wCkptSched : ScheduleSpec :=
  { freq := "15min", freqDuration := 500, round_hour := none,
    round_min := none, backtrack := some Backtrack.checkpoint }

/-- The metadata entry `evaluate_schedules` produces for the witness
schedule. -/
def wCkptMeta : SchedMeta :=
  { next_date := 1500, is_subsumed := false, prev_checkpoint := some 1000,
    is_checkpoint_driven := true, round_hour := none, round_min := none,
    is_due := true, start_date := some 1001, backtrack := none,
    mark_complete := ["15min"] }

/-- Witness for the checkpoint theorem: the hypotheses hold at the
concrete input and the conclusion follows by the theorem. -/
theorem evaluate_schedules_checkpoint_start_witness :
    (([wCkptSched].map (·.freq)).Nodup ∧ wCkptSched ∈ [wCkptSched] ∧
     schedule_is_due wCkptEnv wCkptSched = true ∧
     wCkptSched.backtrack = some Backtrack.checkpoint ∧
     (wCkptSched.freq, wCkptMeta) ∈ evaluate_schedules wCkptEnv
       [wCkptSched]) ∧
    (wCkptMeta.backtrack = none ∧
     wCkptMeta.prev_checkpoint = wCkptEnv.lastExec wCkptSched.freq ∧
     wCkptMeta.start_date =
       (wCkptEnv.lastExec wCkptSched.freq).map (· + 1) ∧
     (wCkptEnv.lastExec wCkptSched.freq = none →
       wCkptMeta.start_date = none) ∧
     (∀ last sd, wCkptEnv.lastExec wCkptSched.freq = some last →
       wCkptMeta.start_date = some sd → last < sd)) :=
  ⟨⟨by decide, by decide, by decide, by decide, by decide⟩,
   evaluate_schedules_checkpoint_start wCkptEnv [wCkptSched] wCkptSched
     wCkptMeta (by decide) (by decide) (by decide) (by decide)
     (by decide)⟩

/-- The rewrite of the progressive pass never changes the dictionary
key. -/
theorem progressive_rewrite_fst (allDue : List String) (lastDue : String)
    (p : String × SchedMeta) :
    (progressive_rewrite allDue lastDue p).1 = p.1 := by
  unfold progressive_rewrite
  by_cases h1 : p.1 = lastDue
  · rw [if_pos h1]
  · rw [if_neg h1]
    by_cases h2 : p.2.is_due = true
    · rw [if_pos h2]
    · rw [if_neg h2]

/-- Filtering a list by agreement with a member's key yields exactly that
member when the keys are distinct. -/
theorem filter_key_eq_single {α β : Type} [DecidableEq β] (f : α → β)
    (l : List α) (a : α) (h : (l.map f).Nodup) (ha : a ∈ l) :
    l.filter (fun x => f x = f a) = [a] := by
  induction l with
  | nil => cases ha
  | cons b t ih =>
    rw [List.map_cons, List.nodup_cons] at h
    rcases List.mem_cons.mp ha with hab | hat
    · subst hab
      rw [List.filter_cons_of_pos (by simp)]
      have hnone : t.filter (fun x => f x = f a) = [] := by
        apply List.filter_eq_nil_iff.mpr
        intro x hx hfx
        exact h.1 (List.mem_map.mpr ⟨x, hx, by simpa using hfx⟩)
      rw [hnone]
    · have hne : ¬ (f b = f a) := by
        intro hEq
        exact h.1 (List.mem_map.mpr ⟨a, hat, hEq.symm⟩)
      rw [List.filter_cons_of_neg (by simpa using hne)]
      exact ih h.2 hat

/-- Every member of a list sorted by ascending duration has duration at
most that of the last element. -/
theorem freq_le_getLast (l : List ScheduleSpec) (hne : l ≠ [])
    (hp : l.Pairwise (fun a b => a.freqDuration ≤ b.freqDuration)) :
    ∀ x ∈ l, x.freqDuration ≤ (l.getLast hne).freqDuration := by
  induction l with
  | nil => cases hne rfl
  | cons b t ih =>
    intro x hx
    cases t with
    | nil =>
      have hxb : x = b := by simpa using hx
      subst hxb
      simp [List.getLast]
    | cons c u =>
      rw [List.getLast_cons (by simp)]
      rw [List.pairwise_cons] at hp
      rcases List.mem_cons.mp hx with hxb | hxt
      · subst hxb
        exact le_trans (hp.1 _ (List.getLast_mem (by simp)))
          (le_refl _)
      · exact ih (by simp) hp.2 x hxt

/-- C1 — Progressive subsumption: when the payload's
`is_schedule_progressive` flag is true and at least one schedule is due,
`evaluate_schedules` returns metadata in which exactly one schedule has
`is_due = true` — the last due schedule in the ascending-duration
schedule list, which is a longest-period due schedule — its
`mark_complete` equals the list of all originally due schedules, and
every other originally due schedule ends with `is_due = false` and
`is_subsumed = true`. -/
theorem evaluate_schedules_progressive_subsumption (env : SchedEnv)
    (scheds : List ScheduleSpec)
    (hprog : env.is_schedule_progressive = true)
    (hnodup : (scheds.map (·.freq)).Nodup)
    (hsorted : scheds.Pairwise
      (fun a b => a.freqDuration ≤ b.freqDuration))
    (hne : scheds.filter (fun s => schedule_is_due env s) ≠ []) :
    ∃ L ∈ scheds, schedule_is_due env L = true ∧
      (all_due_freqs env scheds).getLast? = some L.freq ∧
      (∀ s ∈ scheds, schedule_is_due env s = true →
        s.freqDuration ≤ L.freqDuration) ∧
      ((evaluate_schedules env scheds).filter
        (fun p => p.2.is_due)).map Prod.fst = [L.freq] ∧
      (∀ m, (L.freq, m) ∈ evaluate_schedules env scheds →
        m.is_due = true ∧ m.mark_complete = all_due_freqs env scheds) ∧
      (∀ s ∈ scheds, schedule_is_due env s = true → s.freq ≠ L.freq →
        ∀ m, (s.freq, m) ∈ evaluate_schedules env scheds →
          m.is_due = false ∧ m.is_subsumed = true) := by
  classical
  set dueS := scheds.filter (fun s => schedule_is_due env s) with hdueS
  set L := dueS.getLast hne with hL
  have hLdue : L ∈ dueS := List.getLast_mem hne
  have hLmem : L ∈ scheds := (List.mem_filter.mp hLdue).1
  have hLisdue : schedule_is_due env L = true := by
    simpa using (List.mem_filter.mp hLdue).2
  have hinj : ∀ x ∈ scheds, ∀ y ∈ scheds, x.freq = y.freq → x = y := by
    intro x hx y hy hxy
    exact List.inj_on_of_nodup_map hnodup hx hy hxy
  have hallDue : all_due_freqs env scheds = dueS.map (·.freq) := rfl
  have hlast : (all_due_freqs env scheds).getLast? = some L.freq := by
    rw [hallDue, List.getLast?_map, List.getLast?_eq_getLast _ hne]
    rfl
  have hres : evaluate_schedules env scheds =
      (sched_metas_base env scheds).map
        (progressive_rewrite (all_due_freqs env scheds) L.freq) := by
    unfold evaluate_schedules
    rw [hlast]
    exact if_pos hprog
  -- the composite function applied to each schedule
  have hcomp : evaluate_schedules env scheds = scheds.map (fun s =>
      progressive_rewrite (all_due_freqs env scheds) L.freq
        (s.freq, eval_one_schedule env s)) := by
    rw [hres]
    unfold sched_metas_base
    rw [List.map_map]
    rfl
  have hentry : ∀ s ∈ scheds,
      (progressive_rewrite (all_due_freqs env scheds) L.freq
        (s.freq, eval_one_schedule env s)).2.is_due =
        decide (s.freq = L.freq) := by
    intro s hs
    by_cases hsf : s.freq = L.freq
    · have hsL : s = L := hinj s hs L hLmem hsf
      subst hsL
      unfold progressive_rewrite
      rw [if_pos (show (L.freq, eval_one_schedule env L).1 = L.freq
        from rfl)]
      simp only [decide_eq_true_eq]
      rw [eval_one_schedule_is_due]
      simp [hLisdue, hsf]
    · unfold progressive_rewrite
      rw [if_neg (by simpa using hsf)]
      by_cases hsd : (eval_one_schedule env s).is_due = true
      · rw [if_pos hsd]
        simp [hsf]
      · rw [if_neg hsd]
        simp only [Bool.not_eq_true] at hsd
        simp [hsd, hsf]
  refine ⟨L, hLmem, hLisdue, hlast, ?_, ?_, ?_, ?_⟩
  · -- L is a longest-period due schedule
    intro s hs hsd
    have hsdue : s ∈ dueS := List.mem_filter.mpr ⟨hs, by simpa using hsd⟩
    have hdueSorted : dueS.Pairwise
        (fun a b => a.freqDuration ≤ b.freqDuration) :=
      hsorted.sublist (List.filter_sublist scheds)
    exact freq_le_getLast dueS hne hdueSorted s hsdue
  · -- exactly one entry is due, keyed by L's frequency
    rw [hcomp, List.filter_map]
    have hfc : scheds.filter (fun s =>
        (progressive_rewrite (all_due_freqs env scheds) L.freq
          (s.freq, eval_one_schedule env s)).2.is_due) =
        scheds.filter (fun s => decide (s.freq = L.freq)) := by
      apply List.filter_congr
      intro s hs
      exact hentry s hs
    rw [Function.comp_def, hfc]
    have hone : scheds.filter (fun s => decide (s.freq = L.freq)) = [L] := by
      have := filter_key_eq_single (fun s : ScheduleSpec => s.freq)
        scheds L hnodup hLmem
      simpa using this
    rw [hone]
    simp [progressive_rewrite_fst]
  · -- the L entry is due with the full mark_complete list
    intro m hm
    rw [hcomp] at hm
    simp only [List.mem_map] at hm
    obtain ⟨s, hs, hsm⟩ := hm
    have hfst : s.freq = L.freq := by
      have h5 := congrArg Prod.fst hsm
      simpa [progressive_rewrite_fst] using h5
    have hsL : s = L := hinj s hs L hLmem hfst
    have hm2 : m = (progressive_rewrite (all_due_freqs env scheds) L.freq
        (s.freq, eval_one_schedule env s)).2 :=
      (congrArg Prod.snd hsm).symm
    have hm3 : m = { eval_one_schedule env s with
        mark_complete := all_due_freqs env scheds } := by
      rw [hm2]
      unfold progressive_rewrite
      rw [if_pos (by simpa using hfst)]
    constructor
    · rw [hm3]
      show (eval_one_schedule env s).is_due = true
      rw [eval_one_schedule_is_due, hsL]
      exact hLisdue
    · rw [hm3]
  · -- every other originally due schedule is flipped
    intro s hs hsd hsne m hm
    rw [hcomp] at hm
    simp only [List.mem_map] at hm
    obtain ⟨s', hs', hsm⟩ := hm
    have hfst : s'.freq = s.freq := by
      have h5 := congrArg Prod.fst hsm
      simpa [progressive_rewrite_fst] using h5
    have hss : s' = s := hinj s' hs' s hs hfst
    have hm2 : m = (progressive_rewrite (all_due_freqs env scheds) L.freq
        (s'.freq, eval_one_schedule env s')).2 :=
      (congrArg Prod.snd hsm).symm
    have hne1 : ¬ ((s'.freq, eval_one_schedule env s').1 = L.freq) := by
      simpa [hfst] using hsne
    have hsd' : ((s'.freq, eval_one_schedule env s').2.is_due = true) := by
      show (eval_one_schedule env s').is_due = true
      rw [eval_one_schedule_is_due, hss]
      exact hsd
    have hm3 : m = { eval_one_schedule env s' with
        is_due := false, is_subsumed := true } := by
      rw [hm2]
      unfold progressive_rewrite
      rw [if_neg hne1, if_pos hsd']
    rw [hm3]
    exact ⟨rfl, rfl⟩

/-- Environment for the progressive-subsumption witness: both schedules
have run before and are due again at time 10000. -/
def wProgEnv : SchedEnv :=
  { execute_date := 10000, todayMidnight := 0,
    lastExec := fun f =>
      if f = "5min" then some 100 else if f = "1h" then some 50 else none,
    is_schedule_progressive := true }

/-- The two schedules of the progressive witness, ascending duration. -/
def wProgScheds : List ScheduleSpec :=
  [{ freq := "5min", freqDuration := 300, round_hour := none,
     round_min := none, backtrack := none },
   { freq := "1h", freqDuration := 3600, round_hour := none,
     round_min := none, backtrack := some (Backtrack.duration 1000) }]

/-- Witness for the progressive-subsumption theorem at the concrete
two-schedule input. -/
theorem evaluate_schedules_progressive_subsumption_witness :
    (wProgEnv.is_schedule_progressive = true ∧
     ((wProgScheds.map (·.freq)).Nodup) ∧
     wProgScheds.Pairwise (fun a b => a.freqDuration ≤ b.freqDuration) ∧
     wProgScheds.filter (fun s => schedule_is_due wProgEnv s) ≠ []) ∧
    (∃ L ∈ wProgScheds, schedule_is_due wProgEnv L = true ∧
      (all_due_freqs wProgEnv wProgScheds).getLast? = some L.freq ∧
      (∀ s ∈ wProgScheds, schedule_is_due wProgEnv s = true →
        s.freqDuration ≤ L.freqDuration) ∧
      ((evaluate_schedules wProgEnv wProgScheds).filter
        (fun p => p.2.is_due)).map Prod.fst = [L.freq] ∧
      (∀ m, (L.freq, m) ∈ evaluate_schedules wProgEnv wProgScheds →
        m.is_due = true ∧
        m.mark_complete = all_due_freqs wProgEnv wProgScheds) ∧
      (∀ s ∈ wProgScheds, schedule_is_due wProgEnv s = true →
        s.freq ≠ L.freq →
        ∀ m, (s.freq, m) ∈ evaluate_schedules wProgEnv wProgScheds →
          m.is_due = false ∧ m.is_subsumed = true)) :=
  ⟨⟨rfl, by decide, by decide, by decide⟩,
   evaluate_schedules_progressive_subsumption wProgEnv wProgScheds rfl
     (by decide) (by decide) (by decide)⟩

/-! ### JobController.get_chunks (pipeline.py lines 1692-1754) -/

/-- The `while chunk_end < end_date` loop of `get_chunks`
(lines 1742-1752) for a payload without a `get_adjusted_start_date`
override (`exec_payload_method` then returns its default, the unchanged
`chunk_start`): from the last emitted chunk end `ce`, the next chunk runs
from `ce + 1µs` to `min(chunk_start + chunk_size, end_date)`. The chunk
size is in microseconds. -/
def chunk_while (size : Nat) (end_date : Int) (ce : Int) :
    List (Int × Int) :=
  if h : ce < end_date then
    (ce + 1, min (ce + 1 + (size : Int)) end_date) ::
      chunk_while size end_date (min (ce + 1 + (size : Int)) end_date)
  else []
termination_by (end_date - ce).toNat
decreasing_by
  have h1 : ce + 1 ≤ min (ce + 1 + (size : Int)) end_date :=
    le_min (by omega) (by omega)
  omega

/-- The main path of `get_chunks` (lines 1724-1752): round the start date
onto the schedule, then emit chunks of `chunk_size` until `end_date` is
reached. -/
def get_chunks_main (todayMidnight : Int) (size : Nat) (s0 end_date : Int)
    (round_hour round_min : Option Int) (interval : Int) :
    List (Option Int × Int) :=
  ((adjust_to_schedule todayMidnight s0 round_hour round_min interval,
    min (adjust_to_schedule todayMidnight s0 round_hour round_min interval
      + (size : Int)) end_date) ::
   chunk_while size end_date
     (min (adjust_to_schedule todayMidnight s0 round_hour round_min
       interval + (size : Int)) end_date)).map
    (fun p => (some p.1, p.2))

/-- JobController.get_chunks for a payload without a
`get_adjusted_start_date` override. `early_ts` models the payload's
`get_early_timestamp` result (`none` when the payload lacks the method or
returns nothing): a null start date falls back to it, and when both are
null a single `(None, end_date)` chunk is returned. -/
def get_chunks (todayMidnight : Int) (size : Nat) (start_date : Option Int)
    (end_date : Int) (round_hour round_min : Option Int) (interval : Int)
    (early_ts : Option Int) : List (Option Int × Int) :=
  match start_date, early_ts with
  | none, none => [(none, end_date)]
  | none, some e =>
    get_chunks_main todayMidnight size e end_date round_hour round_min
      interval
  | some s, _ =>
    get_chunks_main todayMidnight size s end_date round_hour round_min
      interval

/-- A chunk produced by the loop is nonempty only while the end date has
not been reached. -/
theorem chunk_while_ne_nil (size : Nat) (end_date ce : Int)
    (h : ce < end_date) : chunk_while size end_date ce ≠ [] := by
  rw [chunk_while, dif_pos h]
  exact List.cons_ne_nil _ _

/-- Every chunk of the loop ends at `min(start + size, end_date)`. -/
theorem chunk_while_mem_end (size : Nat) (end_date : Int) :
    ∀ ce, ∀ p ∈ chunk_while size end_date ce,
      p.2 = min (p.1 + (size : Int)) end_date ∧ p.1 ≤ end_date := by
  intro ce
  induction ce using chunk_while.induct size end_date with
  | case1 ce h ih =>
    intro p hp
    rw [chunk_while, dif_pos h] at hp
    rcases List.mem_cons.mp hp with hph | hpt
    · subst hph
      exact ⟨rfl, by omega⟩
    · exact ih p hpt
  | case2 ce h =>
    intro p hp
    rw [chunk_while, dif_neg h] at hp
    cases hp

/-- Consecutive chunks of the loop are linked: each starts one
microsecond after the previous chunk's end. The lemma also links the
first loop chunk to an arbitrary previously emitted chunk ending at
`ce`. -/
theorem chunk_while_chain (size : Nat) (end_date : Int) :
    ∀ ce x, List.Chain' (fun p q : Int × Int => q.1 = p.2 + 1)
      ((x, ce) :: chunk_while size end_date ce) := by
  intro ce
  induction ce using chunk_while.induct size end_date with
  | case1 ce h ih =>
    intro x
    rw [chunk_while, dif_pos h]
    exact List.Chain'.cons rfl (ih (ce + 1))
  | case2 ce h =>
    intro x
    rw [chunk_while, dif_neg h]
    exact List.chain'_singleton _

/-- The last chunk of the loop ends exactly at the end date. -/
theorem chunk_while_getLast (size : Nat) (end_date : Int) :
    ∀ ce, ce < end_date →
      ∃ q, (chunk_while size end_date ce).getLast? = some q ∧
        q.2 = end_date := by
  intro ce
  induction ce using chunk_while.induct size end_date with
  | case1 ce h ih =>
    intro _
    rw [chunk_while, dif_pos h]
    by_cases h2 : min (ce + 1 + (size : Int)) end_date < end_date
    · obtain ⟨q, hq, hq2⟩ := ih h2
      refine ⟨q, ?_, hq2⟩
      rw [← hq]
      cases hcw : chunk_while size end_date
          (min (ce + 1 + (size : Int)) end_date) with
      | nil => exact absurd hcw (chunk_while_ne_nil _ _ _ h2)
      | cons b t => simp [List.getLast?]
    · have hmin : min (ce + 1 + (size : Int)) end_date = end_date := by
        have := min_le_right (ce + 1 + (size : Int)) end_date
        omega
      rw [chunk_while, dif_neg h2]
      exact ⟨(ce + 1, min (ce + 1 + (size : Int)) end_date), rfl, hmin⟩
  | case2 ce h =>
    intro hlt
    exact absurd hlt h

/-- Every instant strictly after `ce` and at most the end date is covered
by some chunk of the loop. -/
theorem chunk_while_cover (size : Nat) (end_date : Int) :
    ∀ ce t, ce < t → t ≤ end_date →
      ∃ p ∈ chunk_while size end_date ce, p.1 ≤ t ∧ t ≤ p.2 := by
  intro ce
  induction ce using chunk_while.induct size end_date with
  | case1 ce h ih =>
    intro t ht1 ht2
    rw [chunk_while, dif_pos h]
    by_cases hc : t ≤ min (ce + 1 + (size : Int)) end_date
    · exact ⟨(ce + 1, min (ce + 1 + (size : Int)) end_date),
        List.mem_cons_self _ _, by omega, hc⟩
    · push_neg at hc
      obtain ⟨p, hp, hp1, hp2⟩ := ih t hc ht2
      exact ⟨p, List.mem_cons_of_mem _ hp, hp1, hp2⟩
  | case2 ce h =>
    intro t ht1 ht2
    omega

/-- The last element of a cons is the last element of its nonempty
tail. -/
theorem getLast?_cons_ne {α : Type} (a : α) (l : List α) (h : l ≠ []) :
    (a :: l).getLast? = l.getLast? := by
  cases l with
  | nil => cases h rfl
  | cons b t => simp [List.getLast?]

/-- C2 — Chunk coverage: for every non-null start date at most the end
date, a payload with no `get_adjusted_start_date` override and a positive
chunk size, `get_chunks` returns a finite nonempty list of chunks whose
first chunk starts at the schedule-adjusted start date, in which every
chunk ends at `min(chunk_start + chunk_size, end_date)`, every subsequent
chunk starts exactly one microsecond after the previous chunk's end, the
last chunk ends exactly at the end date, and the chunks cover every
microsecond instant of `[start_date, end_date]`; consecutive chunks are
contiguous and non-overlapping. -/
theorem get_chunks_coverage (todayMidnight : Int) (size : Nat)
    (s end_date : Int) (round_hour round_min : Option Int)
    (interval : Int) (early_ts : Option Int)
    (hsz : 0 < size) (hI : 0 < interval) (hse : s ≤ end_date) :
    (let cs0 := adjust_to_schedule todayMidnight s round_hour round_min
       interval
     let chunks := get_chunks todayMidnight size (some s) end_date
       round_hour round_min interval early_ts
     chunks ≠ [] ∧
     chunks.head? = some (some cs0, min (cs0 + (size : Int)) end_date) ∧
     (∀ p ∈ chunks, ∃ c, p.1 = some c ∧ c ≤ end_date ∧
       p.2 = min (c + (size : Int)) end_date) ∧
     List.Chain' (fun p q => q.1 = some (p.2 + 1)) chunks ∧
     (∃ q, chunks.getLast? = some q ∧ q.2 = end_date) ∧
     (∀ t, s ≤ t → t ≤ end_date →
       ∃ p ∈ chunks, ∃ c, p.1 = some c ∧ c ≤ t ∧ t ≤ p.2)) := by
  intro cs0 chunks
  have hcs0 : cs0 ≤ s :=
    adjust_to_schedule_le todayMidnight s round_hour round_min interval hI
  set ce0 := min (cs0 + (size : Int)) end_date with hce0def
  have hce0 : ce0 ≤ end_date := min_le_right _ _
  have hcs0ce0 : cs0 ≤ ce0 := le_min (by omega) (by omega)
  have hchunks : chunks =
      ((cs0, ce0) :: chunk_while size end_date ce0).map
        (fun p => (some p.1, p.2)) := rfl
  refine ⟨?_, ?_, ?_, ?_, ?_, ?_⟩
  · rw [hchunks]
    simp
  · rw [hchunks]
    rfl
  · intro p hp
    rw [hchunks] at hp
    simp only [List.mem_map, List.mem_cons] at hp
    obtain ⟨a, ha, hpa⟩ := hp
    rcases ha with ha | ha
    · subst ha
      exact ⟨cs0, by rw [← hpa], by omega, by rw [← hpa]⟩
    · obtain ⟨ha2, ha1⟩ := chunk_while_mem_end size end_date ce0 a ha
      exact ⟨a.1, by rw [← hpa], ha1, by rw [← hpa]; exact ha2⟩
  · rw [hchunks]
    rw [List.chain'_map]
    exact (chunk_while_chain size end_date ce0 cs0).imp
      (fun a b hab => by simp [hab])
  · rw [hchunks, List.getLast?_map]
    by_cases h : ce0 < end_date
    · obtain ⟨q, hq, hq2⟩ := chunk_while_getLast size end_date ce0 h
      rw [getLast?_cons_ne _ _ (chunk_while_ne_nil size end_date ce0 h),
        hq]
      exact ⟨(some q.1, q.2), rfl, hq2⟩
    · have hnil : chunk_while size end_date ce0 = [] := by
        rw [chunk_while, dif_neg h]
      rw [hnil]
      exact ⟨(some cs0, ce0), rfl, by omega⟩
  · intro t ht1 ht2
    by_cases hc : t ≤ ce0
    · refine ⟨(some cs0, ce0), ?_, cs0, rfl, by omega, hc⟩
      rw [hchunks]
      exact List.mem_map.mpr ⟨(cs0, ce0), List.mem_cons_self _ _, rfl⟩
    · push_neg at hc
      obtain ⟨p, hp, hp1, hp2⟩ :=
        chunk_while_cover size end_date ce0 t hc ht2
      refine ⟨(some p.1, p.2), ?_, p.1, rfl, hp1, hp2⟩
      rw [hchunks]
      exact List.mem_map.mpr ⟨p, List.mem_cons_of_mem _ hp, rfl⟩

/-- Witness for the chunk-coverage theorem: start 0, end 20, chunk size
7, no rounding (cf. the spec's S6 scenario on a microsecond scale). -/
theorem get_chunks_coverage_witness :
    ((0 : Nat) < 7 ∧ (0 : Int) < 60 ∧ (0 : Int) ≤ 20) ∧
    (let cs0 := adjust_to_schedule 0 0 none none 60
     let chunks := get_chunks 0 7 (some 0) 20 none none 60 none
     chunks ≠ [] ∧
     chunks.head? = some (some cs0, min (cs0 + (7 : Int)) 20) ∧
     (∀ p ∈ chunks, ∃ c, p.1 = some c ∧ c ≤ 20 ∧
       p.2 = min (c + (7 : Int)) 20) ∧
     List.Chain' (fun p q => q.1 = some (p.2 + 1)) chunks ∧
     (∃ q, chunks.getLast? = some q ∧ q.2 = 20) ∧
     (∀ t, (0 : Int) ≤ t → t ≤ 20 →
       ∃ p ∈ chunks, ∃ c, p.1 = some c ∧ c ≤ t ∧ t ≤ p.2)) :=
  ⟨⟨by decide, by decide, by decide⟩,
   get_chunks_coverage 0 7 0 20 none none 60 none (by decide) (by decide)
     (by decide)⟩

/-! ### Db2DataWriter (pipeline.py lines 544-830) -/

/-- Module constant DATA_ITEM_TYPE_BOOLEAN. -/
def DATA_ITEM_TYPE_BOOLEAN : String := "BOOLEAN"

/-- Module constant DATA_ITEM_TYPE_NUMBER. -/
def DATA_ITEM_TYPE_NUMBER : String := "NUMBER"

/-- Module constant DATA_ITEM_TYPE_LITERAL. -/
def DATA_ITEM_TYPE_LITERAL : String := "LITERAL"

/-- Module constant DATA_ITEM_TYPE_TIMESTAMP. -/
def DATA_ITEM_TYPE_TIMESTAMP : String := "TIMESTAMP"

/-- The data-item metadata dict entries the writer reads: the values of
the `transient`, `sourceTableName` and `columnType` keys (`none` when the
key is absent; the repository stores booleans under `transient`). -/
structure ItemMeta where
  transient : Option Bool
  sourceTableName : Option String
  columnType : Option String
  deriving Repr, DecidableEq

/-- The unknown-type coercion of `_get_active_cols_properties`
(lines 731-738): any column type other than the four known ones is
written as LITERAL. -/
def coerce_column_type (ty : String) : String :=
  if ty ≠ DATA_ITEM_TYPE_BOOLEAN ∧ ty ≠ DATA_ITEM_TYPE_NUMBER ∧
     ty ≠ DATA_ITEM_TYPE_LITERAL ∧ ty ≠ DATA_ITEM_TYPE_TIMESTAMP then
    DATA_ITEM_TYPE_LITERAL
  else ty

/-- Db2DataWriter._get_active_cols_properties (lines 705-746): for each
frame column look up its metadata; keep the column with its (coerced)
type and table name only when metadata exists, `transient` is the literal
`False`, and both `sourceTableName` and `columnType` are present. -/
def get_active_cols_properties (metaOf : String → Option ItemMeta)
    (cols : List String) : List (String × String × String) :=
  cols.filterMap (fun c =>
    match metaOf c with
    | none => none
    | some m =>
      if m.transient = some false then
        match m.sourceTableName with
        | none => none
        | some tb =>
          match m.columnType with
          | none => none
          | some ty => some (c, coerce_column_type ty, tb)
      else none)

/-- One row of the bulk insert buffer built by `_persist_dataframe`
(lines 649-678): the item name, the dimension values taken from the row
index, and the four typed value slots. -/
structure InsertRow where
  key : String
  dims : List PyVal
  valueB : Option Int
  valueN : Option XFloat
  valueS : Option String
  valueT : Option PyVal
  deriving Repr, DecidableEq

/-- The body of the per-cell loop of `_persist_dataframe`
(lines 642-678) for one data item of one frame row: skip the cell when
`pd.isna` holds, otherwise build the insert row. `ix` is the row's index
tuple and `index_pos` the table's index positions (`None` for a
single-part index, which the loop then fails to iterate). -/
def persist_cell_pos (item_name : String) (item_type : String) (v : PyVal)
    (ix : List PyVal) (ps : List Nat) : Except PyError (Option InsertRow) :=
  match ps.mapM (fun p =>
    match ix.get? p with
    | some d => Except.ok d
    | none =>
      Except.error (PyError.indexError "tuple index out of range")) with
  | Except.error e => Except.error e
  | Except.ok dims =>
    match (if item_type = DATA_ITEM_TYPE_NUMBER then
        match v.toFloat with
        | Except.error e => Except.error e
        | Except.ok f =>
          Except.ok (if PyVal.isFiniteX f then some f else none)
      else Except.ok none) with
    | Except.error e => Except.error e
    | Except.ok vn =>
      Except.ok (some
        { key := item_name, dims := dims,
          valueB := if item_type = DATA_ITEM_TYPE_BOOLEAN then
              some (if v.truthy then (1 : Int) else 0)
            else none,
          valueN := vn,
          valueS := if item_type = DATA_ITEM_TYPE_LITERAL then
              some v.toStr
            else none,
          valueT := if item_type = DATA_ITEM_TYPE_TIMESTAMP then
              some v
            else none })

/-- The whole per-cell loop body: skip NA cells, fail on a `None` index
position list (the single-part-index case, where iterating `None`
raises), otherwise build the row with `persist_cell_pos`. -/
def persist_cell (item_name : String) (item_type : String) (v : PyVal)
    (ix : List PyVal) (index_pos : Option (List Nat)) :
    Except PyError (Option InsertRow) :=
  if v.isNA then Except.ok none
  else
    match index_pos with
    | none =>
      Except.error (PyError.typeError "NoneType object is not iterable")
    | some ps => persist_cell_pos item_name item_type v ix ps

/-- C5 (amended) — Writer row typing: a cell produces an insert row
exactly when it is not NA (`pd.isna`); a NaN NUMBER cell therefore
produces no row at all. An emitted row carries the coerced value in the
slot selected by the column type and null in the other three slots:
BOOLEAN rows carry 0/1 in VALUE_B, NUMBER rows carry the float coercion
in VALUE_N with non-finite values (infinities) becoming null, LITERAL
rows carry the string coercion in VALUE_S, TIMESTAMP rows carry the raw
value in VALUE_T. -/
theorem persist_cell_typed_slots (item_name item_type : String)
    (v : PyVal) (ix : List PyVal) (ps : List Nat) (r : Option InsertRow)
    (h : persist_cell item_name item_type v ix (some ps) = Except.ok r) :
    (v.isNA = true → r = none) ∧
    (∀ row, r = some row →
      v.isNA = false ∧
      row.key = item_name ∧
      row.valueB = (if item_type = DATA_ITEM_TYPE_BOOLEAN then
        some (if v.truthy then (1 : Int) else 0) else none) ∧
      (item_type = DATA_ITEM_TYPE_NUMBER → ∃ f, v.toFloat = Except.ok f ∧
        row.valueN = (if PyVal.isFiniteX f then some f else none)) ∧
      (item_type ≠ DATA_ITEM_TYPE_NUMBER → row.valueN = none) ∧
      row.valueS = (if item_type = DATA_ITEM_TYPE_LITERAL then
        some v.toStr else none) ∧
      row.valueT = (if item_type = DATA_ITEM_TYPE_TIMESTAMP then
        some v else none)) := by
  unfold persist_cell at h
  by_cases hna : v.isNA = true
  · rw [if_pos hna] at h
    have hr : r = none := by
      injection h with h2
      exact h2.symm
    constructor
    · intro _
      exact hr
    · intro row hrow
      rw [hr] at hrow
      cases hrow
  · rw [if_neg hna] at h
    replace h : persist_cell_pos item_name item_type v ix ps =
      Except.ok r := h
    unfold persist_cell_pos at h
    refine ⟨fun hc => absurd hc hna, ?_⟩
    intro row hrow
    cases hmap : ps.mapM (fun p =>
        match ix.get? p with
        | some d => Except.ok d
        | none =>
          Except.error (PyError.indexError "tuple index out of range")) with
    | error e =>
      rw [hmap] at h
      cases h
    | ok dims =>
      rw [hmap] at h
      by_cases hty : item_type = DATA_ITEM_TYPE_NUMBER
      · rw [if_pos hty] at h
        cases hf : v.toFloat with
        | error e =>
          rw [hf] at h
          cases h
        | ok f =>
          rw [hf] at h
          injection h with h2
          rw [← h2] at hrow
          injection hrow with h3
          subst h3
          refine ⟨by simpa using hna, rfl, rfl, ?_, ?_, rfl, rfl⟩
          · intro _
            exact ⟨f, rfl, rfl⟩
          · intro hne
            exact absurd hty hne
      · rw [if_neg hty] at h
        injection h with h2
        rw [← h2] at hrow
        injection hrow with h3
        subst h3
        refine ⟨by simpa using hna, rfl, rfl, ?_, ?_, rfl, rfl⟩
        · intro hc
          exact absurd hc hty
        · intro _
          rfl

/-- The value of the C5 witness: the number 3.7. -/
def wNumVal : PyVal := PyVal.vnum (XFloat.fin (37 / 10))

/-- The insert row produced for the C5 witness cell. -/
def wNumRow : InsertRow :=
  { key := "temp", dims := [PyVal.vstr "A", PyVal.vtime 5],
    valueB := none, valueN := some (XFloat.fin (37 / 10)),
    valueS := none, valueT := none }

/-- Witness for the writer row-typing theorem: a finite NUMBER value 3.7
in a two-part index row. -/
theorem persist_cell_typed_slots_witness :
    (persist_cell "temp" DATA_ITEM_TYPE_NUMBER wNumVal
      [PyVal.vstr "A", PyVal.vtime 5] (some [0, 1]) =
      Except.ok (some wNumRow)) ∧
    ((wNumVal.isNA = true → (some wNumRow : Option InsertRow) = none) ∧
     (∀ row, (some wNumRow : Option InsertRow) = some row →
       wNumVal.isNA = false ∧
       row.key = "temp" ∧
       row.valueB = (if DATA_ITEM_TYPE_NUMBER = DATA_ITEM_TYPE_BOOLEAN
         then some (if wNumVal.truthy then (1 : Int) else 0) else none) ∧
       (DATA_ITEM_TYPE_NUMBER = DATA_ITEM_TYPE_NUMBER →
         ∃ f, wNumVal.toFloat = Except.ok f ∧
         row.valueN = (if PyVal.isFiniteX f then some f else none)) ∧
       (DATA_ITEM_TYPE_NUMBER ≠ DATA_ITEM_TYPE_NUMBER →
         row.valueN = none) ∧
       row.valueS = (if DATA_ITEM_TYPE_NUMBER = DATA_ITEM_TYPE_LITERAL
         then some wNumVal.toStr else none) ∧
       row.valueT = (if DATA_ITEM_TYPE_NUMBER = DATA_ITEM_TYPE_TIMESTAMP
         then some wNumVal else none))) :=
  ⟨rfl,
   persist_cell_typed_slots "temp" DATA_ITEM_TYPE_NUMBER wNumVal
     [PyVal.vstr "A", PyVal.vtime 5] [0, 1] (some wNumRow) rfl⟩

/-- Counterexample to C5 as stated: a NaN-valued NUMBER item is filtered
by the `pd.isna` check and yields no insert row at all, rather than a row
with VALUE_N null. -/
theorem persist_cell_nan_number_counterexample :
    persist_cell "temp" DATA_ITEM_TYPE_NUMBER (PyVal.vnum XFloat.nan)
      [PyVal.vstr "A", PyVal.vtime 5] (some [0, 1]) =
      Except.ok none := rfl

/-- C6 (amended) — Writer column selection: a frame column is selected
for writing, with table `tb` and coerced type `ty`, exactly when its
metadata is present, its `transient` entry is the literal `False` (a
missing or true `transient` both skip the column), `sourceTableName` and
`columnType` are present, and `ty` is the LITERAL-coercion of the
declared column type. -/
theorem get_active_cols_properties_spec
    (metaOf : String → Option ItemMeta) (cols : List String)
    (c ty tb : String) :
    (c, ty, tb) ∈ get_active_cols_properties metaOf cols ↔
    (c ∈ cols ∧ ∃ m, metaOf c = some m ∧ m.transient = some false ∧
      m.sourceTableName = some tb ∧
      ∃ ty0, m.columnType = some ty0 ∧ ty = coerce_column_type ty0) := by
  unfold get_active_cols_properties
  constructor
  · intro h
    obtain ⟨a, ha, hfa⟩ := List.mem_filterMap.mp h
    revert hfa
    cases hm : metaOf a with
    | none =>
      intro hfa
      cases hfa
    | some m =>
      intro hfa
      replace hfa : (if m.transient = some false then
          match m.sourceTableName with
          | none => none
          | some tb =>
            match m.columnType with
            | none => none
            | some ty => some (a, coerce_column_type ty, tb)
        else none) = some (c, ty, tb) := hfa
      by_cases ht : m.transient = some false
      · rw [if_pos ht] at hfa
        revert hfa
        cases htb : m.sourceTableName with
        | none =>
          intro hfa
          cases hfa
        | some tb2 =>
          intro hfa
          replace hfa : (match m.columnType with
            | none => none
            | some ty =>
              some (a, coerce_column_type ty, tb2)) = some (c, ty, tb) :=
            hfa
          revert hfa
          cases hty : m.columnType with
          | none =>
            intro hfa
            cases hfa
          | some ty0 =>
            intro hfa
            replace hfa : some (a, coerce_column_type ty0, tb2) =
              some (c, ty, tb) := hfa
            injection hfa with h2
            rw [Prod.mk.injEq, Prod.mk.injEq] at h2
            obtain ⟨hac, hty2, htb2⟩ := h2
            subst hac
            refine ⟨ha, m, hm, ht, ?_, ty0, hty, hty2.symm⟩
            rw [htb, htb2]
      · rw [if_neg ht] at hfa
        cases hfa
  · rintro ⟨hc, m, hm, ht, htb, ty0, hty, hcoe⟩
    apply List.mem_filterMap.mpr
    refine ⟨c, hc, ?_⟩
    rw [hm]
    show (if m.transient = some false then
        match m.sourceTableName with
        | none => none
        | some tb =>
          match m.columnType with
          | none => none
          | some ty => some (c, coerce_column_type ty, tb)
      else none) = some (c, ty, tb)
    rw [if_pos ht, htb, hty, hcoe]

/-- The metadata of the C6 counterexample: `transient` absent,
`sourceTableName` and `columnType` present. -/
def cexColMeta : ItemMeta :=
  { transient := none, sourceTableName := some "T",
    columnType := some "NUMBER" }

/-- Counterexample to C6 as stated: a column whose metadata is present
and not transient-true, with both `sourceTableName` and `columnType`
defined, is nevertheless skipped because its `transient` entry is absent
rather than the literal `False`. -/
theorem get_active_cols_properties_counterexample :
    get_active_cols_properties
      (fun c => if c = "x" then some cexColMeta else none) ["x"] = [] := by
  decide

/-! ### JobController.collapse_aggregation_stages
(pipeline.py lines 1200-1256) -/

/-- An aggregation stage as seen by `collapse_aggregation_stages`:
`input_set` stands for `list(s._input_set)` (only its length and, for a
singleton, its sole element are consumed), `output_list` for
`s._output_list`, `agg_function` for the optional `_agg_function`
attribute. -/
structure AggStage where
  name : String
  input_set : List String
  output_list : List String
  agg_function : Option String
  deriving Repr, DecidableEq

/-- An entry of the pandas agg dict: either a named reduction understood
by the tabular library or the stage's own execute callable (identified
here by the stage name). -/
inductive AggFn where
  | named (f : String)
  | callable (stage_name : String)
  deriving Repr, DecidableEq

/-- `self.get_stage_param(s,'_agg_function',s.execute)` (line 1236). -/
def aggregation_method (s : AggStage) : AggFn :=
  match s.agg_function with
  | some f => AggFn.named f
  | none => AggFn.callable s.name

/-- Number of `%s` conversion specifiers in a character list. -/
def count_specs_chars : List Char → Nat
  | '%' :: 's' :: rest => count_specs_chars rest + 1
  | _ :: rest => count_specs_chars rest
  | [] => 0

/-- Number of `%s` conversion specifiers in a format string. -/
def count_format_specs (s : String) : Nat := count_specs_chars s.toList

/-- Substitute the first `%s` of a character list by the argument. -/
def subst_first_spec : List Char → String → List Char
  | '%' :: 's' :: rest, arg => arg.toList ++ rest
  | c :: rest, arg => c :: subst_first_spec rest arg
  | [], _ => []

/-- Python `%`-formatting of a format string with a single non-tuple
argument (`fmt % arg`): succeeds only when the string contains exactly
one conversion specifier; with more specifiers than arguments the format
operation itself raises `TypeError: not enough arguments for format
string`. -/
def py_mod_single (fmt : String) (arg : String) : Except PyError String :=
  if count_format_specs fmt = 1 then
    Except.ok (String.mk (subst_first_spec fmt.toList arg))
  else if 1 < count_format_specs fmt then
    Except.error
      (PyError.typeError "not enough arguments for format string")
  else
    Except.error (PyError.typeError
      "not all arguments converted during string formatting")

/-- The format string of the wrong-input-arity raise (lines 1223-1226,
two adjacent string literals): it contains two `%s` specifiers but the
`%` operator is applied to `s.name` alone. -/
def msg_bad_input_arity : String :=
  "A simple aggregator must take a single input item." ++
    " %s has items: %s"

/-- The format string of the wrong-output-arity raise (lines 1229-1231). -/
def msg_bad_output_arity : String :=
  "A simple aggregator must produce a single output " ++
    " %s has items: %s"

/-- Add an aggregation function under an input-column key of the agg
dict (lines 1237-1240: append to the existing list, else start a new
key). -/
def agg_dict_add (d : List (String × List AggFn)) (k : String)
    (fn : AggFn) : List (String × List AggFn) :=
  if (d.lookup k).isSome then
    d.map (fun p => if p.1 = k then (p.1, p.2 ++ [fn]) else p)
  else d ++ [(k, [fn])]

/-- Insertion-ordered set insertion, modelling `set.add`. -/
def set_add (l : List String) (x : String) : List String :=
  if x ∈ l then l else l ++ [x]

/-- The per-simple-aggregator loop of `collapse_aggregation_stages`
(lines 1220-1242): check the arity of each stage — where the raise of the
shape error evaluates `fmt % s.name` first — then record the aggregation
method, input and output. -/
def collapse_simple (stages : List AggStage) :
    Except PyError (List (String × List AggFn) × List String ×
      List String) :=
  stages.foldlM (fun acc s =>
    if s.input_set.length ≠ 1 then
      match py_mod_single msg_bad_input_arity s.name with
      | Except.error e => Except.error e
      | Except.ok m => Except.error (PyError.valueError m)
    else if s.output_list.length ≠ 1 then
      match py_mod_single msg_bad_output_arity s.name with
      | Except.error e => Except.error e
      | Except.ok m => Except.error (PyError.valueError m)
    else
      Except.ok (agg_dict_add acc.1 (s.input_set.headD "")
          (aggregation_method s),
        set_add acc.2.1 (s.input_set.headD ""),
        acc.2.2 ++ [s.output_list.headD ""])) ([], [], [])

/-- JobController.collapse_aggregation_stages: collapse the simple
aggregators into an agg dict, then append the complex aggregators'
inputs and outputs (lines 1244-1256). Returns
`(agg_dict, complex_aggregators, all_stages, inputs, outputs)`. -/
def collapse_aggregation_stages (simple complexStages : List AggStage) :
    Except PyError (List (String × List AggFn) × List AggStage ×
      List AggStage × List String × List String) :=
  match collapse_simple simple with
  | Except.error e => Except.error e
  | Except.ok (d, ins, outs) =>
    Except.ok (d, complexStages, simple ++ complexStages,
      complexStages.foldl (fun acc s => s.input_set.foldl set_add acc)
        ins,
      outs ++ complexStages.foldl (fun acc s => acc ++ s.output_list) [])

/-- The simple aggregator of the C9 failing input: it declares two input
items. -/
def badAggStage : AggStage :=
  { name := "agg_bad", input_set := ["a", "b"], output_list := ["x"],
    agg_function := some "sum" }

/-- C9 — what the code actually does on a wrong-arity simple aggregator:
the job-spec build fails, but with `TypeError: not enough arguments for
format string` raised by the `%` formatting inside the raise statement
(two `%s` specifiers applied to `s.name` alone), not with an error that
names the offending stage; the intended ValueError is never
constructed. -/
theorem collapse_aggregation_stages_bad_arity :
    collapse_aggregation_stages [badAggStage] [] =
      Except.error
        (PyError.typeError "not enough arguments for format string") :=
  rfl

/-! ### DataMerge (pipeline.py lines 117-454)

The running dataset is a pandas dataframe with a (possibly multi-part)
index. A frame is modelled by the names of its index levels (`none` for
an unnamed level), its column list in order, its row index values in row
order, and a total cell function (`PyVal.vnone` standing for pandas
null; `cell` is only read at keys in `keys` and columns in `cols`).
Joins are modelled key-based; the engine's frames keep index entries
unique, and the row order produced by pandas joins (which sort the key
union) is not tracked — no property verified here depends on row
order. -/

/-- A row-index value: one entry per index level. -/
abbrev Key := List PyVal

/-- A pandas dataframe as the merge engine observes it. -/
structure Frame where
  indexNames : List (Option String)
  cols : List String
  keys : List Key
  cell : Key → String → PyVal

/-- `pd.DataFrame()`: no rows, no columns, one unnamed index level. -/
def emptyFrame : Frame :=
  { indexNames := [none], cols := [], keys := [],
    cell := fun _ _ => PyVal.vnone }

/-- `df.empty`: true when either axis has length zero. -/
def Frame.isEmpty (f : Frame) : Bool :=
  f.keys.isEmpty || f.cols.isEmpty

/-- DataMerge.get_index_names (lines 200-216): the non-null index level
names. -/
def Frame.index_names (f : Frame) : List String :=
  f.indexNames.filterMap id

/-- DataMerge.get_cols (lines 218-230): index names together with the
columns (read as a set). -/
def Frame.all_cols (f : Frame) : List String :=
  f.index_names ++ f.cols

/-- `df[c] = v` for a scalar `v`: every row receives `v`; a new column is
appended at the end, an existing one is overwritten in place. -/
def Frame.assign_scalar (f : Frame) (c : String) (v : PyVal) : Frame :=
  { f with
    cols := if c ∈ f.cols then f.cols else f.cols ++ [c],
    cell := fun k c2 => if c2 = c then v else f.cell k c2 }

/-- `self.df[c] = df[c]` for a column aligned by index: each row receives
the value the source frame holds at the same key. -/
def Frame.assign_col (f : Frame) (c : String) (g : Key → PyVal) : Frame :=
  { f with
    cols := if c ∈ f.cols then f.cols else f.cols ++ [c],
    cell := fun k c2 => if c2 = c then g k else f.cell k c2 }

/-- The merge state: the running dataframe and the constants dict
(insertion-ordered, unique keys). List- or array-valued constants (a 1-D
stage result merged into an empty frame) are outside this model; the
engine's constants are scalars (preload flags and scalar outputs). -/
structure MergeState where
  df : Frame
  constants : List (String × PyVal)

/-- Python dict assignment: overwrite in place or append. -/
def dict_set (l : List (String × PyVal)) (k : String) (v : PyVal) :
    List (String × PyVal) :=
  if (l.lookup k).isSome then
    l.map (fun p => if p.1 = k then (p.1, v) else p)
  else l ++ [(k, v)]

/-- DataMerge.add_constant (lines 146-153): record the constant and
assign it to the dataframe. -/
def add_constant (st : MergeState) (name : String) (v : PyVal) :
    MergeState :=
  { df := st.df.assign_scalar name v,
    constants := dict_set st.constants name v }

/-- DataMerge.apply_constants (lines 155-160): assign every recorded
constant to the dataframe, in dict order. -/
def apply_constants (st : MergeState) : MergeState :=
  { st with
    df := st.constants.foldl (fun d p => d.assign_scalar p.1 p.2) st.df }

/-- DataMerge.clear_data (lines 162-168). -/
def clear_data (_st : MergeState) : MergeState :=
  { df := emptyFrame, constants := [] }

/-- The DataMerge right-suffix `_new_` (line 132). -/
def r_suffix : String := "_new_"

/-- One step of DataMerge.coalesce_cols for column `o` (lines 180-186):
when the suffixed variant exists, fill the nulls of `o` from it
(`fillna`); a missing variant (`KeyError`) leaves the frame unchanged. -/
def coalesce_step (suffix : String) (f : Frame) (o : String) : Frame :=
  if (o ++ suffix) ∈ f.cols then
    { f with
      cell := fun k c2 =>
        if c2 = o then
          (if (f.cell k o).isNA then f.cell k (o ++ suffix)
           else f.cell k o)
        else f.cell k c2 }
  else f

/-- The suffixed columns consumed by coalesce (the `altered` list of
lines 179-186). -/
def coalesce_altered (cols : List String) (suffix : String) :
    List String :=
  cols.filterMap (fun o =>
    if (o ++ suffix) ∈ cols then some (o ++ suffix) else none)

/-- DataMerge.coalesce_cols (lines 170-191): fill each base column from
its suffixed variant, then drop the consumed variants. -/
def coalesce_cols (f : Frame) (suffix : String) : Frame :=
  let f2 := f.cols.foldl (coalesce_step suffix) f
  let altered := coalesce_altered f.cols suffix
  if 0 < altered.length then
    { f2 with
      cols := f2.cols.filter (fun c => c ∉ altered) }
  else f2

/-- DataMerge.convert_to_df (lines 193-197): build a frame from a 2-D
array with the supplied column labels and the running frame's index;
shape mismatches raise. -/
def convert_to_df (rows : List (List PyVal)) (col_names : List String)
    (idx : Frame) : Except PyError Frame :=
  if rows.all (fun r => r.length = col_names.length) then
    if rows.length = idx.keys.length then
      Except.ok
        { indexNames := idx.indexNames, cols := col_names,
          keys := idx.keys,
          cell := fun k c =>
            match idx.keys.indexOf? k, col_names.indexOf? c with
            | some i, some j => (rows.getD i []).getD j PyVal.vnone
            | _, _ => PyVal.vnone }
    else Except.error (PyError.valueError
      "Length mismatch between data and index")
  else Except.error (PyError.valueError
    "columns passed do not match data shape")

/-- `df.columns = col_names` when the lengths agree (lines 309-313);
otherwise the frame is left unrenamed. -/
def rename_frame (f : Frame) (col_names : List String) : Frame :=
  if col_names.length = f.cols.length then
    { f with
      cols := col_names,
      cell := fun k c =>
        match col_names.indexOf? c with
        | some i => f.cell k (f.cols.getD i "")
        | none => f.cell k c }
  else f

/-- pd.merge full outer join on the index with suffixes `('', '_new_')`
(lines 367-372): the key union, left columns unchanged, right columns
renamed with the suffix where they clash with a left column; cells
absent from a side are null. -/
def outer_join (L R : Frame) : Frame :=
  { indexNames := L.indexNames,
    cols := L.cols ++ R.cols.map (fun c =>
      if c ∈ L.cols then c ++ r_suffix else c),
    keys := L.keys ++ R.keys.filter (fun k => k ∉ L.keys),
    cell := fun k c =>
      if c ∈ L.cols then
        (if k ∈ L.keys then L.cell k c else PyVal.vnone)
      else if c ∈ R.cols then
        (if k ∈ R.keys then R.cell k c else PyVal.vnone)
      else
        match R.cols.find? (fun c0 => c0 ++ r_suffix = c) with
        | some c0 => (if k ∈ R.keys then R.cell k c0 else PyVal.vnone)
        | none => PyVal.vnone }

/-- The position of a named index level. -/
def level_of (f : Frame) (n : String) : Option Nat :=
  f.indexNames.indexOf? (some n)

/-- The value of the lookup key column for a row of the reset-index left
frame: a former index level or an ordinary column (lines 377-382). -/
def lookup_key_val (f : Frame) (onName : String) (k : Key) : PyVal :=
  match level_of f onName with
  | some i => k.getD i PyVal.vnone
  | none => f.cell k onName

/-- The column names `reset_index` creates for the index levels: the
level name when present, else a positional `level_i` label. -/
def reset_level_cols (idxNames : List (Option String)) : List String :=
  (List.range idxNames.length).map (fun i =>
    match idxNames.getD i none with
    | some n => n
    | none => "level_" ++ toString i)

/-- The lookup merge (lines 376-398): reset the index to columns,
left-join on the single index name of the lookup frame, then restore the
original (named) index levels. The joined cells read the lookup frame at
the key-column value of each row. Fails like pandas when an index level
name collides with a column or when no named level exists to restore. -/
def lookup_join (L R : Frame) (onName : String) :
    Except PyError Frame :=
  if L.index_names.any (fun n => n ∈ L.cols) then
    Except.error (PyError.valueError "cannot insert level, already exists")
  else if L.index_names.isEmpty then
    Except.error (PyError.valueError
      "Must pass non-zero number of levels or codes")
  else
    let resetCols := reset_level_cols L.indexNames ++ L.cols
    let rightRenamed := R.cols.map (fun c =>
      if c ∈ resetCols then c ++ r_suffix else c)
    let namedPos := (List.range L.indexNames.length).filter (fun i =>
      (L.indexNames.getD i none).isSome)
    Except.ok
      { indexNames := L.index_names.map some,
        cols := resetCols.filter (fun c => c ∉ L.index_names) ++
          rightRenamed,
        keys := L.keys.map (fun k =>
          namedPos.map (fun i => k.getD i PyVal.vnone)),
        cell := fun k2 c =>
          match (L.keys.map (fun k =>
              namedPos.map (fun i => k.getD i PyVal.vnone))).indexOf? k2
            with
          | none => PyVal.vnone
          | some r =>
            let k := L.keys.getD r []
            if c ∈ reset_level_cols L.indexNames then
              (match (reset_level_cols L.indexNames).indexOf? c with
               | some i => k.getD i PyVal.vnone
               | none => PyVal.vnone)
            else if c ∈ L.cols then L.cell k c
            else
              let rk := lookup_key_val L onName k
              let c0 := match R.cols.find? (fun c1 =>
                  c1 ++ r_suffix = c) with
                | some c1 => if c ∈ rightRenamed ∧ c ∉ R.cols then c1
                  else c
                | none => c
              if [rk] ∈ R.keys then R.cell [rk] c0 else PyVal.vnone }

/-- The merge strategies of DataMerge.merge_dataframe (lines 320-353);
`nostrategy` stands for `merge_strategy is None`. -/
inductive MergeStrategy where
  | skip
  | replace
  | slice
  | outer
  | lookup
  | nostrategy
  deriving Repr, DecidableEq

/-- Strategy selection (lines 322-345, first matching rule wins):
empty incoming frame — skip; empty running frame — replace; identical
index values — skip when the promised columns are already present and no
overwrite is forced, else slice; identical index-name lists — outer;
single-part incoming index — lookup. -/
def select_strategy (selfF df : Frame) (col_names : List String)
    (force_overwrite : Bool) : MergeStrategy :=
  if df.isEmpty then MergeStrategy.skip
  else if selfF.isEmpty then MergeStrategy.replace
  else if df.keys = selfF.keys then
    (if col_names.all (fun c => decide (c ∈ selfF.cols)) &&
        !force_overwrite then
      MergeStrategy.skip
    else MergeStrategy.slice)
  else if df.index_names = selfF.index_names then MergeStrategy.outer
  else if df.index_names.length = 1 then MergeStrategy.lookup
  else MergeStrategy.nostrategy

/-- The skip action (lines 356-360): add a null column for every
promised column not already present. -/
def skip_action (st : MergeState) (col_names : List String) : MergeState :=
  { st with
    df := (col_names.filter (fun c => c ∉ st.df.cols)).foldl
      (fun d c => d.assign_scalar c PyVal.vnone) st.df }

/-- DataMerge.merge_dataframe after series promotion and renaming
(lines 320-424): select the strategy and carry it out. -/
def merge_dataframe_body (st : MergeState) (df : Frame)
    (col_names : List String) (force_overwrite : Bool) :
    Except PyError MergeState :=
  match select_strategy st.df df col_names force_overwrite with
  | MergeStrategy.skip => Except.ok (skip_action st col_names)
  | MergeStrategy.replace =>
    Except.ok (apply_constants { st with df := df })
  | MergeStrategy.slice =>
    Except.ok { st with
      df := df.cols.foldl
        (fun d c => d.assign_col c (fun k => df.cell k c)) st.df }
  | MergeStrategy.outer =>
    Except.ok (apply_constants { st with
      df := coalesce_cols (outer_join st.df df) r_suffix })
  | MergeStrategy.lookup =>
    match df.index_names with
    | [onName] =>
      if ¬ (onName ∈ st.df.index_names ∨ onName ∈ st.df.cols) then
        Except.error (PyError.valueError
          "Attempting to merge a dataframe that has an invalid name in the index")
      else
        match lookup_join st.df df onName with
        | Except.error e => Except.error e
        | Except.ok joined =>
          Except.ok { st with df := coalesce_cols joined r_suffix }
    | _ =>
      Except.error (PyError.valueError
        "Auto merge encountered a dataframe that could not be automatically merged")
  | MergeStrategy.nostrategy =>
    if df.index_names.length = 0 then
      -- line 407 references the unbound local df_valid_names
      Except.error (PyError.nameError "name df_valid_names is not defined")
    else
      Except.error (PyError.valueError
        "Auto merge encountered a dataframe that could not be automatically merged")

/-- A stage result as the merge engine receives it: a mapping, a frame, a
series, a scalar (Python `None`, booleans, numbers, strings, timestamps)
or a 2-D array. 1-D arrays, which follow the scalar path with a
length-checked assignment, are outside this model. -/
inductive MObj where
  | mdict
  | mframe (f : Frame)
  | mseries (sname : Option String) (sIndexNames : List (Option String))
      (skeys : List Key) (svals : Key → PyVal)
  | mscalar (v : PyVal)
  | marray (rows : List (List PyVal))

/-- Series promotion (lines 302-307): rename the series to the first
promised column (`col_names[0]` raises on an empty list) and promote it
to a one-column frame. -/
def series_to_frame (col_names : List String)
    (sIndexNames : List (Option String)) (skeys : List Key)
    (svals : Key → PyVal) : Except PyError Frame :=
  match col_names with
  | [] => Except.error (PyError.indexError "list index out of range")
  | c0 :: _ =>
    Except.ok
      { indexNames := sIndexNames, cols := [c0], keys := skeys,
        cell := fun k c => if c = c0 then svals k else PyVal.vnone }

/-- DataMerge.merge_non_dataframe (lines 426-454): a single promised
column stores the scalar as a constant on an empty frame or assigns it
as a column; any other arity fails. -/
def merge_non_dataframe (st : MergeState) (v : PyVal)
    (col_names : List String) : Except PyError MergeState :=
  match col_names with
  | [c] =>
    if st.df.isEmpty then Except.ok (add_constant st c v)
    else Except.ok { st with df := st.df.assign_scalar c v }
  | _ =>
    Except.error (PyError.valueError
      "When the object is not a dataframe or numpy array, it should only deliver a single column")

/-- DataMerge.merge_dataframe (lines 298-424): promote a series, rename
a frame's columns when the promised names fit, then merge by the
selected strategy. -/
def merge_dataframe (st : MergeState) (sf : MObj)
    (col_names : List String) (force_overwrite : Bool) :
    Except PyError MergeState :=
  match sf with
  | MObj.mseries _ sIndexNames skeys svals =>
    match series_to_frame col_names sIndexNames skeys svals with
    | Except.error e => Except.error e
    | Except.ok f => merge_dataframe_body st f col_names force_overwrite
  | MObj.mframe f =>
    merge_dataframe_body st (rename_frame f col_names) col_names
      force_overwrite
  | _ =>
    Except.error (PyError.typeError "not a dataframe or series")

/-- Whether the merge input is a mapping (line 259). -/
def is_mdict : MObj → Bool
  | MObj.mdict => true
  | _ => false

/-- The 2-D-array normalization of DataMerge.execute (lines 268-276):
with more than one promised column, a non-null non-tabular object is
turned into a frame over the running frame's index; a non-null scalar
makes the DataFrame constructor raise. -/
def convert_step (st : MergeState) (obj : MObj)
    (col_names : List String) : Except PyError MObj :=
  if 1 < col_names.length then
    match obj with
    | MObj.marray rows =>
      match convert_to_df rows col_names st.df with
      | Except.error e => Except.error e
      | Except.ok f => Except.ok (MObj.mframe f)
    | MObj.mscalar v =>
      if v = PyVal.vnone then Except.ok obj
      else Except.error (PyError.valueError
        "If using all scalar values, you must pass an index")
    | o => Except.ok o
  else Except.ok obj

/-- The dispatch of DataMerge.execute (lines 278-286): frames and series
go to the dataframe merge, everything else to the non-dataframe merge
(a remaining 2-D array fails its column assignment there). -/
def dispatch_merge (st : MergeState) (obj2 : MObj)
    (col_names : List String) (force_overwrite : Bool) :
    Except PyError MergeState :=
  match obj2 with
  | MObj.mframe f =>
    merge_dataframe st (MObj.mframe f) col_names force_overwrite
  | MObj.mseries n i k v =>
    merge_dataframe st (MObj.mseries n i k v) col_names force_overwrite
  | MObj.mscalar v => merge_non_dataframe st v col_names
  | MObj.marray _ =>
    Except.error (PyError.valueError
      "could not be automatically merged")
  | MObj.mdict =>
    Except.error (PyError.typeError
      "A failure occured when attempting to merge a dictionary with a dataframe")

/-- The closing test of DataMerge.execute (lines 289-294): a non-empty
result frame must carry every promised column among its columns and
index names. -/
def final_check (st2 : MergeState) (col_names : List String) :
    Except PyError MergeState :=
  if !st2.df.isEmpty &&
      !(col_names.all (fun c => decide (c ∈ st2.df.all_cols))) then
    Except.error (PyError.valueError
      "Resulting df does not contain the expected output columns")
  else Except.ok st2

/-- DataMerge.execute (lines 233-296): reject mappings, normalize,
dispatch, and check the postcondition. -/
def merge_execute (st : MergeState) (obj : MObj)
    (col_names : List String) (force_overwrite : Bool) :
    Except PyError MergeState :=
  if is_mdict obj then
    Except.error (PyError.typeError
      "A failure occured when attempting to merge a dictionary with a dataframe")
  else
    match convert_step st obj col_names with
    | Except.error e => Except.error e
    | Except.ok obj2 =>
      match dispatch_merge st obj2 col_names force_overwrite with
      | Except.error e => Except.error e
      | Except.ok st2 => final_check st2 col_names

/-! ### Support lemmas about the frame operations -/

/-- Assigning a scalar keeps the rows. -/
theorem assign_scalar_keys (f : Frame) (c : String) (v : PyVal) :
    (f.assign_scalar c v).keys = f.keys := rfl

/-- Assigning a scalar makes the column present. -/
theorem assign_scalar_mem_self (f : Frame) (c : String) (v : PyVal) :
    c ∈ (f.assign_scalar c v).cols := by
  unfold Frame.assign_scalar
  by_cases h : c ∈ f.cols
  · simp [h]
  · simp [h]

/-- Assigning a scalar keeps every existing column. -/
theorem assign_scalar_mem_mono (f : Frame) (c : String) (v : PyVal)
    (x : String) (hx : x ∈ f.cols) :
    x ∈ (f.assign_scalar c v).cols := by
  unfold Frame.assign_scalar
  by_cases h : c ∈ f.cols
  · simpa [h] using hx
  · simp only [h, ite_false, if_neg, Bool.false_eq_true]
    exact List.mem_append_left _ hx

/-- Assigning an aligned column keeps the rows. -/
theorem assign_col_keys (f : Frame) (c : String) (g : Key → PyVal) :
    (f.assign_col c g).keys = f.keys := rfl

/-- Assigning an aligned column keeps every existing column. -/
theorem assign_col_mem_mono (f : Frame) (c : String) (g : Key → PyVal)
    (x : String) (hx : x ∈ f.cols) :
    x ∈ (f.assign_col c g).cols := by
  unfold Frame.assign_col
  by_cases h : c ∈ f.cols
  · simpa [h] using hx
  · simp only [h, ite_false, if_neg, Bool.false_eq_true]
    exact List.mem_append_left _ hx

/-- A fold of scalar assignments keeps the rows. -/
theorem foldl_assign_keys (l : List (String × PyVal)) (f : Frame) :
    (l.foldl (fun d p => d.assign_scalar p.1 p.2) f).keys = f.keys := by
  induction l generalizing f with
  | nil => rfl
  | cons p t ih => rw [List.foldl_cons, ih, assign_scalar_keys]

/-- A fold of scalar assignments keeps every existing column. -/
theorem foldl_assign_mem_mono (l : List (String × PyVal)) (f : Frame)
    (x : String) (hx : x ∈ f.cols) :
    x ∈ (l.foldl (fun d p => d.assign_scalar p.1 p.2) f).cols := by
  induction l generalizing f with
  | nil => exact hx
  | cons p t ih =>
    rw [List.foldl_cons]
    exact ih _ (assign_scalar_mem_mono f p.1 p.2 x hx)

/-- A fold of scalar assignments adds every assigned column. -/
theorem foldl_assign_mem_of_mem (l : List (String × PyVal)) (f : Frame)
    (k : String) (hk : k ∈ l.map Prod.fst) :
    k ∈ (l.foldl (fun d p => d.assign_scalar p.1 p.2) f).cols := by
  induction l generalizing f with
  | nil => cases hk
  | cons p t ih =>
    rw [List.foldl_cons]
    rcases List.mem_cons.mp hk with hk1 | hk2
    · exact foldl_assign_mem_mono t _ k
        (hk1 ▸ assign_scalar_mem_self f p.1 p.2)
    · exact ih _ hk2

/-- The cell of a column untouched by the later assignments. -/
theorem foldl_assign_cell_of_not_mem (l : List (String × PyVal))
    (f : Frame) (k : String) (hk : k ∉ l.map Prod.fst) (key : Key) :
    (l.foldl (fun d p => d.assign_scalar p.1 p.2) f).cell key k =
      f.cell key k := by
  induction l generalizing f with
  | nil => rfl
  | cons p t ih =>
    rw [List.foldl_cons]
    have hk1 : k ≠ p.1 := fun hEq =>
      hk (List.mem_cons.mpr (Or.inl hEq))
    have hk2 : k ∉ t.map Prod.fst := fun hmem =>
      hk (List.mem_cons.mpr (Or.inr hmem))
    rw [ih _ hk2]
    show (if k = p.1 then p.2 else f.cell key k) = f.cell key k
    rw [if_neg hk1]

/-- After folding the constants over a frame, a constant with a unique
key holds in every row. -/
theorem foldl_assign_cell_of_mem (l : List (String × PyVal)) (f : Frame)
    (k : String) (v : PyVal) (hnodup : (l.map Prod.fst).Nodup)
    (hkv : (k, v) ∈ l) (key : Key) :
    (l.foldl (fun d p => d.assign_scalar p.1 p.2) f).cell key k = v := by
  induction l generalizing f with
  | nil => cases hkv
  | cons p t ih =>
    rw [List.map_cons, List.nodup_cons] at hnodup
    rw [List.foldl_cons]
    rcases List.mem_cons.mp hkv with hkv1 | hkv2
    · subst hkv1
      rw [foldl_assign_cell_of_not_mem t _ k hnodup.1 key]
      show (if k = k then v else f.cell key k) = v
      rw [if_pos rfl]
    · exact ih _ hnodup.2 hkv2

/-- The coalesce fold changes no columns and no rows. -/
theorem coalesce_foldl_shape (suffix : String) (l : List String)
    (f : Frame) :
    (l.foldl (coalesce_step suffix) f).cols = f.cols ∧
    (l.foldl (coalesce_step suffix) f).keys = f.keys := by
  induction l generalizing f with
  | nil => exact ⟨rfl, rfl⟩
  | cons o t ih =>
    rw [List.foldl_cons]
    have hstep : (coalesce_step suffix f o).cols = f.cols ∧
        (coalesce_step suffix f o).keys = f.keys := by
      unfold coalesce_step
      by_cases h : (o ++ suffix) ∈ f.cols
      · rw [if_pos h]
        exact ⟨rfl, rfl⟩
      · rw [if_neg h]
        exact ⟨rfl, rfl⟩
    obtain ⟨h1, h2⟩ := ih (coalesce_step suffix f o)
    rw [h1, h2, hstep.1, hstep.2]
    exact ⟨rfl, rfl⟩

/-- Coalescing keeps the rows. -/
theorem coalesce_cols_keys (f : Frame) (suffix : String) :
    (coalesce_cols f suffix).keys = f.keys := by
  unfold coalesce_cols
  by_cases h : 0 < (coalesce_altered f.cols suffix).length
  · simp only [h, ite_true, if_pos]
    exact (coalesce_foldl_shape suffix f.cols f).2
  · simp only [h, ite_false, if_neg, Bool.false_eq_true]
    exact (coalesce_foldl_shape suffix f.cols f).2

/-- Every nonempty list of strings has a member of minimal length. -/
theorem list_exists_min_length (l : List String) (h : l ≠ []) :
    ∃ a ∈ l, ∀ b ∈ l, a.length ≤ b.length := by
  induction l with
  | nil => cases h rfl
  | cons c t ih =>
    cases t with
    | nil =>
      refine ⟨c, List.mem_cons_self _ _, ?_⟩
      intro b hb
      have hbc : b = c := by simpa using hb
      rw [hbc]
    | cons d u =>
      obtain ⟨a, ha, hmin⟩ := ih (by simp)
      by_cases hc : c.length ≤ a.length
      · refine ⟨c, List.mem_cons_self _ _, ?_⟩
        intro b hb
        rcases List.mem_cons.mp hb with hb1 | hb2
        · rw [hb1]
        · exact le_trans hc (hmin b hb2)
      · refine ⟨a, List.mem_cons_of_mem _ ha, ?_⟩
        intro b hb
        rcases List.mem_cons.mp hb with hb1 | hb2
        · rw [hb1]
          omega
        · exact hmin b hb2

/-- Every consumed column is the suffixed form of a strictly shorter
column of the frame. -/
theorem coalesce_altered_longer (cols : List String) (suffix : String)
    (hsfx : 0 < suffix.length) (a : String)
    (ha : a ∈ coalesce_altered cols suffix) :
    ∃ o ∈ cols, a = o ++ suffix ∧ o.length < a.length := by
  unfold coalesce_altered at ha
  obtain ⟨o, ho, hoa⟩ := List.mem_filterMap.mp ha
  by_cases h : (o ++ suffix) ∈ cols
  · rw [if_pos h] at hoa
    injection hoa with h2
    refine ⟨o, ho, h2.symm, ?_⟩
    rw [← h2, String.length_append]
    omega
  · rw [if_neg h] at hoa
    cases hoa

/-- Coalescing a frame with at least one column leaves at least one
column: a column of minimal length is never a consumed suffixed
variant. -/
theorem coalesce_cols_ne_nil (f : Frame) (suffix : String)
    (hsfx : 0 < suffix.length) (hne : f.cols ≠ []) :
    (coalesce_cols f suffix).cols ≠ [] := by
  unfold coalesce_cols
  by_cases h : 0 < (coalesce_altered f.cols suffix).length
  · simp only [h, ite_true, if_pos]
    obtain ⟨c0, hc0, hmin⟩ := list_exists_min_length f.cols hne
    have hc0surv : c0 ∉ coalesce_altered f.cols suffix := by
      intro hmem
      obtain ⟨o, ho, _, hlen⟩ :=
        coalesce_altered_longer f.cols suffix hsfx c0 hmem
      exact absurd (hmin o ho) (by omega)
    apply List.ne_nil_of_mem (a := c0)
    rw [(coalesce_foldl_shape suffix f.cols f).1]
    exact List.mem_filter.mpr ⟨hc0, by simpa using hc0surv⟩
  · simp only [h, ite_false, if_neg, Bool.false_eq_true]
    rw [(coalesce_foldl_shape suffix f.cols f).1]
    exact hne

/-- A fold of null-column additions keeps the rows. -/
theorem foldl_addnull_keys (l : List String) (f : Frame) :
    (l.foldl (fun d c => d.assign_scalar c PyVal.vnone) f).keys =
      f.keys := by
  induction l generalizing f with
  | nil => rfl
  | cons c t ih => rw [List.foldl_cons, ih, assign_scalar_keys]

/-- A fold of null-column additions keeps every existing column. -/
theorem foldl_addnull_mono (l : List String) (f : Frame) (x : String)
    (hx : x ∈ f.cols) :
    x ∈ (l.foldl (fun d c => d.assign_scalar c PyVal.vnone) f).cols := by
  induction l generalizing f with
  | nil => exact hx
  | cons c t ih =>
    rw [List.foldl_cons]
    exact ih _ (assign_scalar_mem_mono f c PyVal.vnone x hx)

/-- A fold of null-column additions adds every listed column. -/
theorem foldl_addnull_mem (l : List String) (f : Frame) (x : String)
    (hx : x ∈ l) :
    x ∈ (l.foldl (fun d c => d.assign_scalar c PyVal.vnone) f).cols := by
  induction l generalizing f with
  | nil => cases hx
  | cons c t ih =>
    rw [List.foldl_cons]
    rcases List.mem_cons.mp hx with hx1 | hx2
    · exact foldl_addnull_mono t _ x
        (hx1 ▸ assign_scalar_mem_self f c PyVal.vnone)
    · exact ih _ hx2

/-- The skip action delivers every promised column. -/
theorem skip_action_mem (st : MergeState) (col_names : List String)
    (c : String) (hc : c ∈ col_names) :
    c ∈ (skip_action st col_names).df.cols := by
  unfold skip_action
  by_cases h : c ∈ st.df.cols
  · exact foldl_addnull_mono _ _ c h
  · exact foldl_addnull_mem _ _ c
      (List.mem_filter.mpr ⟨hc, by simpa using h⟩)

/-- A fold of aligned-column assignments keeps the rows. -/
theorem foldl_assign_col_keys (l : List String) (src : Frame)
    (f : Frame) :
    (l.foldl (fun d c => d.assign_col c (fun k => src.cell k c)) f).keys =
      f.keys := by
  induction l generalizing f with
  | nil => rfl
  | cons c t ih => rw [List.foldl_cons, ih, assign_col_keys]

/-- A fold of aligned-column assignments keeps every existing column. -/
theorem foldl_assign_col_mono (l : List String) (src : Frame) (f : Frame)
    (x : String) (hx : x ∈ f.cols) :
    x ∈ (l.foldl (fun d c =>
      d.assign_col c (fun k => src.cell k c)) f).cols := by
  induction l generalizing f with
  | nil => exact hx
  | cons c t ih =>
    rw [List.foldl_cons]
    exact ih _ (assign_col_mem_mono f c _ x hx)

/-- A frame is non-empty exactly when both axes are. -/
theorem isEmpty_eq_false_iff (f : Frame) :
    f.isEmpty = false ↔ f.keys ≠ [] ∧ f.cols ≠ [] := by
  cases hk : f.keys <;> cases hc : f.cols <;>
    simp [Frame.isEmpty, hk, hc]

/-- An empty incoming frame always selects the skip strategy. -/
theorem select_of_obj_empty (s d : Frame) (cn : List String) (fo : Bool)
    (h : d.isEmpty = true) :
    select_strategy s d cn fo = MergeStrategy.skip := by
  unfold select_strategy
  rw [if_pos h]

/-- A non-empty incoming frame on an empty running frame selects
replace. -/
theorem select_of_self_empty (s d : Frame) (cn : List String) (fo : Bool)
    (h1 : d.isEmpty = false) (h2 : s.isEmpty = true) :
    select_strategy s d cn fo = MergeStrategy.replace := by
  unfold select_strategy
  rw [if_neg (by simp [h1]), if_pos h2]

/-- The non-dataframe merge delivers every promised column. -/
theorem merge_non_dataframe_mem (st : MergeState) (v : PyVal)
    (col_names : List String) (st2 : MergeState)
    (h : merge_non_dataframe st v col_names = Except.ok st2) :
    ∀ c ∈ col_names, c ∈ st2.df.cols := by
  cases col_names with
  | nil => cases h
  | cons c t =>
    cases t with
    | cons d u => cases h
    | nil =>
      unfold merge_non_dataframe at h
      replace h : (if st.df.isEmpty then Except.ok (add_constant st c v)
          else Except.ok { st with
            df := st.df.assign_scalar c v }) = Except.ok st2 := h
      intro x hx
      have hxc : x = c := by simpa using hx
      subst hxc
      by_cases hemp : st.df.isEmpty
      · rw [if_pos hemp] at h
        injection h with h2
        rw [← h2]
        exact assign_scalar_mem_self st.df x v
      · rw [if_neg hemp] at h
        injection h with h2
        rw [← h2]
        exact assign_scalar_mem_self st.df x v

/-- Shape of a successful lookup join: one output row per input row, and
every column of the running frame survives. -/
theorem lookup_join_ok_shape (L R : Frame) (onName : String) (j : Frame)
    (h : lookup_join L R onName = Except.ok j) :
    j.keys.length = L.keys.length ∧ (∀ c ∈ L.cols, c ∈ j.cols) := by
  unfold lookup_join at h
  by_cases h1 : L.index_names.any (fun n => decide (n ∈ L.cols)) = true
  · rw [if_pos h1] at h
    cases h
  · rw [if_neg h1] at h
    by_cases h2 : L.index_names.isEmpty = true
    · rw [if_pos h2] at h
      cases h
    · rw [if_neg h2] at h
      injection h with h3
      have hno : ∀ n ∈ L.index_names, n ∉ L.cols := by
        intro n hn hncols
        apply h1
        rw [List.any_eq_true]
        exact ⟨n, hn, by simpa using hncols⟩
      constructor
      · rw [← h3]
        exact List.length_map _ _
      · intro c hc
        rw [← h3]
        apply List.mem_append_left
        apply List.mem_filter.mpr
        refine ⟨List.mem_append_right _ hc, ?_⟩
        have : c ∉ L.index_names := fun hmem => hno c hmem hc
        simpa using this

/-- A successful dataframe-merge strategy application whose result frame
is empty delivered every promised column anyway (the only such case is
the skip strategy, which injects null columns). -/
theorem merge_body_empty_subset (st : MergeState) (df : Frame)
    (col_names : List String) (force_overwrite : Bool) (st2 : MergeState)
    (h : merge_dataframe_body st df col_names force_overwrite =
      Except.ok st2)
    (hemp : st2.df.isEmpty = true) :
    ∀ c ∈ col_names, c ∈ st2.df.all_cols := by
  unfold merge_dataframe_body at h
  cases hsel : select_strategy st.df df col_names force_overwrite with
  | skip =>
    rw [hsel] at h
    injection h with h2
    intro c hc
    rw [← h2]
    exact List.mem_append_right _ (skip_action_mem st col_names c hc)
  | replace =>
    rw [hsel] at h
    injection h with h2
    exfalso
    have hdne : df.isEmpty = false := by
      by_contra hdne
      rw [select_of_obj_empty st.df df col_names force_overwrite
        (by simpa using hdne)] at hsel
      cases hsel
    obtain ⟨hk, hc⟩ := (isEmpty_eq_false_iff df).mp hdne
    have : st2.df.isEmpty = false := by
      apply (isEmpty_eq_false_iff st2.df).mpr
      rw [← h2]
      constructor
      · show (st.constants.foldl
          (fun d p => d.assign_scalar p.1 p.2) df).keys ≠ []
        rw [foldl_assign_keys]
        exact hk
      · obtain ⟨x, hxmem⟩ := List.exists_mem_of_ne_nil df.cols hc
        exact List.ne_nil_of_mem (foldl_assign_mem_mono _ _ x hxmem)
    rw [this] at hemp
    cases hemp
  | slice =>
    rw [hsel] at h
    injection h with h2
    exfalso
    have hsne : st.df.isEmpty = false := by
      by_contra hsne
      have hdne : df.isEmpty = false := by
        by_contra hdne
        rw [select_of_obj_empty st.df df col_names force_overwrite
          (by simpa using hdne)] at hsel
        cases hsel
      rw [select_of_self_empty st.df df col_names force_overwrite hdne
        (by simpa using hsne)] at hsel
      cases hsel
    obtain ⟨hk, hc⟩ := (isEmpty_eq_false_iff st.df).mp hsne
    have : st2.df.isEmpty = false := by
      apply (isEmpty_eq_false_iff st2.df).mpr
      rw [← h2]
      constructor
      · show (df.cols.foldl (fun d c =>
          d.assign_col c (fun k => df.cell k c)) st.df).keys ≠ []
        rw [foldl_assign_col_keys]
        exact hk
      · obtain ⟨x, hxmem⟩ := List.exists_mem_of_ne_nil st.df.cols hc
        exact List.ne_nil_of_mem (foldl_assign_col_mono _ _ _ x hxmem)
    rw [this] at hemp
    cases hemp
  | outer =>
    rw [hsel] at h
    injection h with h2
    exfalso
    have hsne : st.df.isEmpty = false := by
      by_contra hsne
      have hdne : df.isEmpty = false := by
        by_contra hdne
        rw [select_of_obj_empty st.df df col_names force_overwrite
          (by simpa using hdne)] at hsel
        cases hsel
      rw [select_of_self_empty st.df df col_names force_overwrite hdne
        (by simpa using hsne)] at hsel
      cases hsel
    obtain ⟨hk, hc⟩ := (isEmpty_eq_false_iff st.df).mp hsne
    have hjoincols : (outer_join st.df df).cols ≠ [] := by
      obtain ⟨x, hxmem⟩ := List.exists_mem_of_ne_nil st.df.cols hc
      exact List.ne_nil_of_mem
        (List.mem_append_left _ hxmem)
    have hjoinkeys : (outer_join st.df df).keys ≠ [] := by
      obtain ⟨x, hxmem⟩ := List.exists_mem_of_ne_nil st.df.keys hk
      exact List.ne_nil_of_mem (List.mem_append_left _ hxmem)
    have : st2.df.isEmpty = false := by
      apply (isEmpty_eq_false_iff st2.df).mpr
      rw [← h2]
      constructor
      · show (st.constants.foldl (fun d p => d.assign_scalar p.1 p.2)
          (coalesce_cols (outer_join st.df df) r_suffix)).keys ≠ []
        rw [foldl_assign_keys, coalesce_cols_keys]
        exact hjoinkeys
      · have hcoal := coalesce_cols_ne_nil (outer_join st.df df) r_suffix
          (by decide) hjoincols
        obtain ⟨x, hxmem⟩ := List.exists_mem_of_ne_nil _ hcoal
        exact List.ne_nil_of_mem (foldl_assign_mem_mono _ _ x hxmem)
    rw [this] at hemp
    cases hemp
  | lookup =>
    rw [hsel] at h
    exfalso
    have hsne : st.df.isEmpty = false := by
      by_contra hsne
      have hdne : df.isEmpty = false := by
        by_contra hdne
        rw [select_of_obj_empty st.df df col_names force_overwrite
          (by simpa using hdne)] at hsel
        cases hsel
      rw [select_of_self_empty st.df df col_names force_overwrite hdne
        (by simpa using hsne)] at hsel
      cases hsel
    obtain ⟨hk, hc⟩ := (isEmpty_eq_false_iff st.df).mp hsne
    revert h
    cases hnames : df.index_names with
    | nil => intro h; cases h
    | cons onName t =>
      cases t with
      | cons d2 u => intro h; cases h
      | nil =>
        intro h
        replace h : (if ¬ (onName ∈ st.df.index_names ∨
              onName ∈ st.df.cols) then
            Except.error (PyError.valueError
              "Attempting to merge a dataframe that has an invalid name in the index")
          else
            match lookup_join st.df df onName with
            | Except.error e => Except.error e
            | Except.ok joined =>
              Except.ok { st with
                df := coalesce_cols joined r_suffix }) =
            Except.ok st2 := h
        by_cases hvalid : ¬ (onName ∈ st.df.index_names ∨
            onName ∈ st.df.cols)
        · rw [if_pos hvalid] at h
          cases h
        · rw [if_neg hvalid] at h
          cases hlj : lookup_join st.df df onName with
          | error e =>
            rw [hlj] at h
            cases h
          | ok joined =>
            rw [hlj] at h
            injection h with h2
            obtain ⟨hlen, hcols⟩ :=
              lookup_join_ok_shape st.df df onName joined hlj
            have hjkeys : joined.keys ≠ [] := by
              intro hnil
              rw [hnil] at hlen
              simp only [List.length_nil] at hlen
              exact hk (List.eq_nil_of_length_eq_zero hlen.symm)
            have hjcols : joined.cols ≠ [] := by
              obtain ⟨x, hxmem⟩ := List.exists_mem_of_ne_nil st.df.cols hc
              exact List.ne_nil_of_mem (hcols x hxmem)
            have : st2.df.isEmpty = false := by
              apply (isEmpty_eq_false_iff st2.df).mpr
              rw [← h2]
              refine ⟨?_, ?_⟩
              · show (coalesce_cols joined r_suffix).keys ≠ []
                rw [coalesce_cols_keys]
                exact hjkeys
              · exact coalesce_cols_ne_nil joined r_suffix (by decide)
                  hjcols
            rw [this] at hemp
            cases hemp
  | nostrategy =>
    rw [hsel] at h
    by_cases hlen : df.index_names.length = 0
    · rw [if_pos hlen] at h
      cases h
    · rw [if_neg hlen] at h
      cases h

/-- A successful merge dispatch whose result frame is empty delivered
every promised column anyway. -/
theorem dispatch_empty_subset (st : MergeState) (obj2 : MObj)
    (col_names : List String) (force_overwrite : Bool) (st2 : MergeState)
    (h : dispatch_merge st obj2 col_names force_overwrite = Except.ok st2)
    (hemp : st2.df.isEmpty = true) :
    ∀ c ∈ col_names, c ∈ st2.df.all_cols := by
  cases obj2 with
  | mdict => simp [dispatch_merge] at h
  | marray rows => simp [dispatch_merge] at h
  | mframe f =>
    replace h : merge_dataframe st (MObj.mframe f) col_names
      force_overwrite = Except.ok st2 := h
    replace h : merge_dataframe_body st (rename_frame f col_names)
      col_names force_overwrite = Except.ok st2 := h
    exact merge_body_empty_subset _ _ _ _ _ h hemp
  | mseries n i k v =>
    replace h : (match series_to_frame col_names i k v with
      | Except.error e => Except.error e
      | Except.ok f =>
        merge_dataframe_body st f col_names force_overwrite) =
        Except.ok st2 := h
    cases hser : series_to_frame col_names i k v with
    | error e =>
      rw [hser] at h
      cases h
    | ok f =>
      rw [hser] at h
      exact merge_body_empty_subset _ _ _ _ _ h hemp
  | mscalar v =>
    replace h : merge_non_dataframe st v col_names = Except.ok st2 := h
    intro c hc
    exact List.mem_append_right _
      (merge_non_dataframe_mem _ _ _ _ h c hc)

/-- C3 — Merge postcondition: every call of DataMerge.execute that
returns without raising leaves every promised column name present among
the resulting frame's columns or index names; this holds for every
strategy (skip, replace, slice, outer, lookup) and for the non-dataframe
path. (When a promised name would be missing from a non-empty result the
call raises the merge-postcondition ValueError instead of returning.) -/
theorem merge_execute_postcondition (st : MergeState) (obj : MObj)
    (col_names : List String) (force_overwrite : Bool) (st' : MergeState)
    (h : merge_execute st obj col_names force_overwrite =
      Except.ok st') :
    ∀ c ∈ col_names, c ∈ st'.df.all_cols := by
  unfold merge_execute at h
  by_cases hdict : is_mdict obj = true
  · rw [if_pos hdict] at h
    cases h
  · rw [if_neg hdict] at h
    cases hconv : convert_step st obj col_names with
    | error e =>
      rw [hconv] at h
      cases h
    | ok obj2 =>
      rw [hconv] at h
      replace h : (match dispatch_merge st obj2 col_names
          force_overwrite with
        | Except.error e => Except.error e
        | Except.ok st2 => final_check st2 col_names) =
          Except.ok st' := h
      cases hdisp : dispatch_merge st obj2 col_names force_overwrite with
      | error e =>
        rw [hdisp] at h
        cases h
      | ok st2 =>
        rw [hdisp] at h
        replace h : (if (!st2.df.isEmpty &&
            !(col_names.all (fun c =>
              decide (c ∈ st2.df.all_cols)))) = true then
            Except.error (PyError.valueError
              "Resulting df does not contain the expected output columns")
          else Except.ok st2) = Except.ok st' := h
        by_cases hfc : (!st2.df.isEmpty &&
            !(col_names.all (fun c =>
              decide (c ∈ st2.df.all_cols)))) = true
        · rw [if_pos hfc] at h
          cases h
        · rw [if_neg hfc] at h
          injection h with h2
          subst h2
          by_cases hemp : st2.df.isEmpty = true
          · exact dispatch_empty_subset _ _ _ _ _ hdisp hemp
          · have hemp2 : st2.df.isEmpty = false := by
              simpa [Bool.not_eq_true] using hemp
            have hall : col_names.all (fun c =>
                decide (c ∈ st2.df.all_cols)) = true := by
              by_contra hnall
              have hnall2 : col_names.all (fun c =>
                  decide (c ∈ st2.df.all_cols)) = false := by
                simpa [Bool.not_eq_true] using hnall
              apply hfc
              rw [hemp2, hnall2]
              rfl
            intro c hc
            have := List.all_eq_true.mp hall c hc
            simpa using this

/-- The initial merge state of the C3 witness. -/
def wMergeSt0 : MergeState := { df := emptyFrame, constants := [] }

/-- The result of the C3 witness merge: the skip strategy injects a null
column for the promised name. -/
def wMergeStSkip : MergeState := skip_action wMergeSt0 ["x"]

/-- Witness for the merge postcondition: merging an empty frame into an
empty running frame promises column `x`, which the skip strategy
injects. -/
theorem merge_execute_postcondition_witness :
    (merge_execute wMergeSt0 (MObj.mframe emptyFrame) ["x"] false =
      Except.ok wMergeStSkip) ∧
    (∀ c ∈ ["x"], c ∈ wMergeStSkip.df.all_cols) :=
  ⟨rfl,
   merge_execute_postcondition wMergeSt0 (MObj.mframe emptyFrame) ["x"]
     false wMergeStSkip rfl⟩

/-- C4 — Outer merge preserves constants: for every merge state and
every pair `(k, v)` present in the constants map before a dataframe
merge that selects the outer strategy, the merged state's frame contains
column `k` holding `v` in every row — including rows newly introduced by
the full outer join — because `apply_constants` reassigns every constant
after the join and the coalesce. -/
theorem merge_outer_preserves_constants (st : MergeState) (df : Frame)
    (col_names : List String) (force_overwrite : Bool) (k : String)
    (v : PyVal) (st' : MergeState)
    (hnodup : (st.constants.map Prod.fst).Nodup)
    (hkv : (k, v) ∈ st.constants)
    (hsel : select_strategy st.df df col_names force_overwrite =
      MergeStrategy.outer)
    (h : merge_dataframe_body st df col_names force_overwrite =
      Except.ok st') :
    k ∈ st'.df.cols ∧ ∀ key ∈ st'.df.keys, st'.df.cell key k = v := by
  unfold merge_dataframe_body at h
  rw [hsel] at h
  injection h with h2
  subst h2
  constructor
  · exact foldl_assign_mem_of_mem st.constants _ k
      (List.mem_map_of_mem Prod.fst hkv)
  · intro key _
    exact foldl_assign_cell_of_mem st.constants _ k v hnodup hkv key

/-- The running frame of the outer-merge witness: one row `id=1` with
column `x`. -/
def wC4Self : Frame :=
  { indexNames := [some "id"], cols := ["x"], keys := [[PyVal.vint 1]],
    cell := fun _ c => if c = "x" then PyVal.vint 5 else PyVal.vnone }

/-- The witness merge state carrying the constant `k = "v"`. -/
def wC4St : MergeState :=
  { df := wC4Self, constants := [("k", PyVal.vstr "v")] }

/-- The incoming frame of the outer-merge witness: a new row `id=2` with
column `y`. -/
def wC4Obj : Frame :=
  { indexNames := [some "id"], cols := ["y"], keys := [[PyVal.vint 2]],
    cell := fun _ c => if c = "y" then PyVal.vint 7 else PyVal.vnone }

/-- The merged state of the outer-merge witness. -/
def wC4Result : MergeState :=
  apply_constants { wC4St with
    df := coalesce_cols (outer_join wC4Self wC4Obj) r_suffix }

/-- Witness for the outer-merge constants theorem: after the outer merge
that adds the row `id=2`, both rows carry `k = "v"`. -/
theorem merge_outer_preserves_constants_witness :
    ((wC4St.constants.map Prod.fst).Nodup ∧
     ("k", PyVal.vstr "v") ∈ wC4St.constants ∧
     select_strategy wC4St.df wC4Obj ["y"] false =
       MergeStrategy.outer ∧
     merge_dataframe_body wC4St wC4Obj ["y"] false =
       Except.ok wC4Result) ∧
    ("k" ∈ wC4Result.df.cols ∧
     ∀ key ∈ wC4Result.df.keys,
       wC4Result.df.cell key "k" = PyVal.vstr "v") :=
  ⟨⟨by decide, by decide, rfl, rfl⟩,
   merge_outer_preserves_constants wC4St wC4Obj ["y"] false "k"
     (PyVal.vstr "v") wC4Result (by decide) (by decide) rfl rfl⟩

/-! ### JobController.execute_stage and execute_stages
(pipeline.py lines 1414-1512) -/

/-- A stage as the runner observes it: the behavioural parameters read
through `get_stage_param` / `exec_stage_method` (with their source
defaults) and the value its `execute` method returns. The two-signature
dispatch of `execute_stage` (lines 1494-1505) only affects how the stage
is called, not what the runner does with the returned object, so the
result is carried directly. -/
structure MStage where
  name : String
  allow_empty_df : Bool
  produces_output_items : Bool
  discard_prior : Bool
  output_list : Option (List String)
  result : MObj

/-- JobController.execute_stage result normalization (lines 1507-1508):
the boolean `True` becomes an empty dataframe; everything else — the
boolean `False` included — is returned as-is. -/
def execute_stage (s : MStage) : MObj :=
  match s.result with
  | MObj.mscalar (PyVal.vbool true) => MObj.mframe emptyFrame
  | r => r

/-- JobController.execute_stages (lines 1414-1482): run the stages in
order over a DataMerge, halting (with `can_proceed = False`) only when a
stage that disallows empty input meets an empty frame; each produced
result is merged under the stage's output columns. Returns the final
frame and the `can_proceed` flag. -/
def execute_stages : List MStage → MergeState →
    Except PyError (Frame × Bool)
  | [], st => Except.ok (st.df, true)
  | s :: rest, st =>
    if !s.allow_empty_df && st.df.isEmpty then
      Except.ok (st.df, false)
    else
      let result := execute_stage s
      let st1 := if s.discard_prior then clear_data st else st
      if s.produces_output_items then
        match s.output_list with
        | none =>
          Except.error (PyError.attributeError
            "did not provide a list of columns produced")
        | some [] =>
          Except.error (PyError.attributeError
            "did not provide a list of columns produced")
        | some new_cols =>
          match merge_execute st1 result new_cols false with
          | Except.error e => Except.error e
          | Except.ok st2 => execute_stages rest st2
      else execute_stages rest st1

/-- The stage of the C7 failing input that returns the boolean `False`
(the documented halt signal of `execute_stage`, lines 1487-1491). -/
def wFalseStage : MStage :=
  { name := "stage_false", allow_empty_df := true,
    produces_output_items := true, discard_prior := false,
    output_list := some ["h"],
    result := MObj.mscalar (PyVal.vbool false) }

/-- The stage scheduled after the `False`-returning one. -/
def wAfterStage : MStage :=
  { name := "stage_after", allow_empty_df := true,
    produces_output_items := true, discard_prior := false,
    output_list := some ["y"], result := MObj.mscalar (PyVal.vint 7) }

/-- The non-empty input frame of the C7 failing input. -/
def wHaltFrame : Frame :=
  { indexNames := [some "id"], cols := ["a"], keys := [[PyVal.vint 1]],
    cell := fun _ c => if c = "a" then PyVal.vint 9 else PyVal.vnone }

/-- C7 — what the code actually does when a stage returns the boolean
`False`: `execute_stages` does not halt. The `False` is passed to
DataMerge.execute like any scalar and stored in the stage's output
column, the following stage still executes (its column `y` appears), and
`can_proceed` stays true — the chunk is not skipped, contradicting the
halt semantics that `execute_stage`'s own comment documents. -/
theorem execute_stages_false_not_halt :
    (execute_stages [wFalseStage, wAfterStage]
        { df := wHaltFrame, constants := [] }).map
      (fun r => (r.2, r.1.cols, r.1.cell [PyVal.vint 1] "h",
        r.1.cell [PyVal.vint 1] "y")) =
    Except.ok (true, ["a", "h", "y"], PyVal.vbool false, PyVal.vint 7) :=
  rfl

end Pipeline
